import Mathlib

/-!
Verification of the `bytebuf` byte-buffer library (`src/bytebuf.ts`).

The library is a `DataView` subclass offering positional (`get*`/`set*`) and
streaming (`read*`/`write*`) access to a byte region, with fixed-width
numerics, base-128 variable-length integers (plain, unsigned and zigzag),
strings and zero-copy array views.

Shallow embedding conventions:
* The underlying `ArrayBuffer` is a `List Nat` of bytes (each `< 256`;
  writes reduce modulo 256 exactly as the JS `DataView` setters do).
* A `ByteBuf` records the buffer, the `DataView` window
  (`viewOffset` = `super.byteOffset`, `viewLength` = `super.byteLength`)
  and `pos`, the private mutable `#byteOffset` cursor of the class.
* JavaScript 32-bit operator semantics (`&`, `|`, `^`, `<<`, `>>`, `>>>`)
  are modelled on `Int`/`Nat` through `toUint32`/`toInt32`.
* Fallible operations return `Except JsErr`; operations that mutate the
  buffer or the cursor also return the successor `ByteBuf`, and they return
  it on the error path too, so partial mutation before a thrown exception
  is preserved by the model.
* Offsets, lengths and element counts are modelled as `Nat`: every call
  site checked by the claims passes nonnegative integral indices.
-/

/-- Error conditions surfaced by the library (the spec's taxonomy):
`outOfBounds` for a `RangeError` of a `DataView`/`TypedArray` access or
constructor, `lengthExceeded` for the `RangeError` thrown by the VarInt
codec, `unsupportedEncoding` for a rejected text encoding. -/
inductive JsErr where
  | outOfBounds
  | lengthExceeded
  | unsupportedEncoding
deriving DecidableEq

/-- Result of a positional variable-length integer read
(interface `IntResult` in the source). -/
structure IntResult where
  value : Int
  byteLength : Nat
deriving DecidableEq

/-- The `StringResult` record `{ value, byteLength }` returned by
`getVarString`. -/
structure StringResult where
  value : String
  byteLength : Nat
deriving DecidableEq

deriving instance DecidableEq for Except

/-- `ToUint32` of an integral JS number: reduce modulo `2^32` into `[0, 2^32)`. -/
def toUint32 (n : Int) : Nat := (n % 4294967296).toNat

/-- `ToInt32` of an integral JS number: reduce modulo `2^32` into `[-2^31, 2^31)`. -/
def toInt32 (n : Int) : Int :=
  if n % 4294967296 < 2147483648 then n % 4294967296 else n % 4294967296 - 4294967296

/-- JS bitwise `a & b` (32-bit). -/
def jsAnd (a b : Int) : Int := toInt32 ((toUint32 a &&& toUint32 b : Nat) : Int)

/-- JS bitwise `a | b` (32-bit). -/
def jsOr (a b : Int) : Int := toInt32 ((toUint32 a ||| toUint32 b : Nat) : Int)

/-- JS bitwise `a ^ b` (32-bit). -/
def jsXor (a b : Int) : Int := toInt32 ((toUint32 a ^^^ toUint32 b : Nat) : Int)

/-- JS `a << k`: shift count reduced mod 32, result an int32.
`x <<< s` on `Nat` is `x * 2^s`; the multiplication form is used directly. -/
def jsShl (a : Int) (k : Nat) : Int := toInt32 ((toUint32 a * 2 ^ (k % 32) : Nat) : Int)

/-- JS `a >> k` (sign-propagating right shift): arithmetic shift of the
int32 value, i.e. floor division by `2^(k mod 32)`; on `Int`, `/` is
Euclidean division, which is floor division for a positive divisor. -/
def jsSar (a : Int) (k : Nat) : Int := toInt32 a / 2 ^ (k % 32)

/-- JS `a >>> k` (zero-fill right shift): unsigned 32-bit result. -/
def jsShr (a : Int) (k : Nat) : Nat := toUint32 a / 2 ^ (k % 32)

/-- Two's-complement interpretation of `u < 2^bits` as a signed integer. -/
def toSigned (bits : Nat) (u : Nat) : Int :=
  if u < 2 ^ (bits - 1) then (u : Int) else (u : Int) - 2 ^ bits

/-- Wrap an integer to its unsigned `bits`-bit representative
(the `ToUint8`/`ToUint16`/.../`ToBigUint64` conversions). -/
def toUnsigned (bits : Nat) (z : Int) : Nat := (z % (2 ^ bits : Int)).toNat

/-- Little-endian byte decomposition of `u`, `w` bytes long. -/
def leBytes : Nat → Nat → List Nat
  | 0, _ => []
  | w + 1, u => u % 256 :: leBytes w (u / 256)

/-- Value of a little-endian byte list. -/
def leValue : List Nat → Nat
  | [] => 0
  | byte :: rest => byte + 256 * leValue rest

/-- Overwrite `l` with the bytes `bs` starting at absolute index `i`
(a sequence of `List.set` writes, as issued by a typed-array `set` or a
run of `DataView` stores). -/
def writeList (l : List Nat) (i : Nat) : List Nat → List Nat
  | [] => l
  | byte :: rest => writeList (l.set i byte) (i + 1) rest

/-- Bit length of `n`, fuel-driven so that it reduces definitionally.
`bitsF fuel n` is the bit length of `n` whenever `n < 2^fuel`. -/
def bitsF : Nat → Nat → Nat
  | 0, _ => 0
  | f + 1, n => if n = 0 then 0 else bitsF f (n / 2) + 1

/-- Round a nonnegative integer to the nearest float64 (53-bit significand,
ties to even). Fuel 128 in `bitsF` covers every magnitude that reaches this
model (the 64-bit integer domain). Overflow to infinity is far outside the
modelled domain and is not represented. -/
def f64roundPos (n : Nat) : Nat :=
  if n < 2 ^ 53 then n
  else
    let e := bitsF 128 n - 53
    let q := n / 2 ^ e
    let r := n % 2 ^ e
    if 2 * r < 2 ^ e then q * 2 ^ e
    else if 2 ^ e < 2 * r then (q + 1) * 2 ^ e
    else if q % 2 = 0 then q * 2 ^ e else (q + 1) * 2 ^ e

/-- Round an integer to the nearest float64. Models the JS `Number(bigint)`
conversion, and the value a JS `number`-typed parameter actually holds when
an integral mathematical value is passed to it. -/
def f64roundInt (z : Int) : Int :=
  if 0 ≤ z then (f64roundPos z.toNat : Int) else -(f64roundPos (-z).toNat : Int)

/-- An IEEE-754 value decoded exactly: a finite rational, an infinity, or
NaN (payloads collapsed, as JS `number` semantics do). -/
inductive FloatVal where
  | finite (q : ℚ)
  | inf (neg : Bool)
  | nan
deriving DecidableEq

/-- Decode an IEEE-754 bit pattern `u` with `expBits` exponent bits and
`sigBits` significand bits into its exact value. -/
def decodeFloat (expBits sigBits : Nat) (u : Nat) : FloatVal :=
  let sig := u % 2 ^ sigBits
  let expo := u / 2 ^ sigBits % 2 ^ expBits
  let neg := u / 2 ^ (sigBits + expBits) % 2 = 1
  let bias : Int := 2 ^ (expBits - 1) - 1
  if expo = 2 ^ expBits - 1 then
    if sig = 0 then .inf neg else .nan
  else
    let mag : ℚ :=
      if expo = 0 then (sig : ℚ) * (2 : ℚ) ^ ((1 : Int) - bias - sigBits)
      else ((2 ^ sigBits + sig : Nat) : ℚ) * (2 : ℚ) ^ ((expo : Int) - bias - sigBits)
    .finite (if neg then -mag else mag)

/-- `⌊log₂ q⌋` for a positive rational `q`: the unique `e` with
`2^e ≤ q < 2^(e+1)`. The numerator/denominator bit lengths pin `e` down
to two candidates; one comparison settles it. -/
def qlog2 (q : ℚ) : Int :=
  let a := q.num.toNat
  let d := q.den
  let e0 : Int := (bitsF a a : Int) - (bitsF d d : Int)
  if (2 : ℚ) ^ e0 ≤ q then e0 else e0 - 1

/-- Round a nonnegative rational to the nearest natural number, ties to
even. -/
def qRoundNE (q : ℚ) : Nat :=
  let n := q.floor.toNat
  if q - n < 1 / 2 then n
  else if 1 / 2 < q - n then n + 1
  else if n % 2 = 0 then n else n + 1

/-- Encode a value into an IEEE-754 bit pattern with `expBits` exponent
bits and `sigBits` significand bits, rounding to nearest with ties to
even — the conversion `DataView.setFloat32` applies to its JS `number`
argument; for `setFloat64` the encoding is exact on float64 values. NaN
encodes as the canonical quiet NaN, magnitudes beyond the format's range
become the infinity pattern, and the sign of a zero collapses (as it
already does in `FloatVal`). -/
def encodeFloat (expBits sigBits : Nat) (v : FloatVal) : Nat :=
  let bias : Int := 2 ^ (expBits - 1) - 1
  let infBits : Nat := (2 ^ expBits - 1) * 2 ^ sigBits
  match v with
  | .nan => infBits + 2 ^ (sigBits - 1)
  | .inf neg => (if neg then 2 ^ (sigBits + expBits) else 0) + infBits
  | .finite q =>
    if q = 0 then 0
    else
      let sb : Nat := if q < 0 then 2 ^ (sigBits + expBits) else 0
      let aq := |q|
      let e := qlog2 aq
      if e < 1 - bias then
        sb + qRoundNE (aq * (2 : ℚ) ^ ((sigBits : Int) + bias - 1))
      else
        let m := qRoundNE (aq * (2 : ℚ) ^ ((sigBits : Int) - e))
        let em : Int × Nat :=
          if m = 2 ^ (sigBits + 1) then (e + 1, 2 ^ sigBits) else (e, m)
        if bias < em.1 then sb + infBits
        else sb + (em.1 + bias).toNat * 2 ^ sigBits + (em.2 - 2 ^ sigBits)

/-- UTF-8 encoding of one Unicode scalar value. -/
def utf8EncodeChar (c : Char) : List Nat :=
  let n := c.toNat
  if n < 0x80 then [n]
  else if n < 0x800 then [0xc0 + n / 64, 0x80 + n % 64]
  else if n < 0x10000 then [0xe0 + n / 4096, 0x80 + n / 64 % 64, 0x80 + n % 64]
  else [0xf0 + n / 262144, 0x80 + n / 4096 % 64, 0x80 + n / 64 % 64, 0x80 + n % 64]

/-- Whether a byte is a UTF-8 continuation byte within the given bounds. -/
def utf8Cont (lo hi byte : Nat) : Bool := lo ≤ byte && byte ≤ hi

/-- WHATWG UTF-8 decoding with U+FFFD replacement, fuel-driven so that the
kernel can evaluate it: on a malformed sequence the offending byte is
emitted as a replacement character (or the truncated prefix is, and the
following byte is reconsidered as a new lead). Every step consumes at
least one byte, so fuel `bytes.length` (supplied by `utf8Decode` below)
never runs out. -/
def utf8DecodeF : Nat → List Nat → List Char
  | 0, _ => []
  | _, [] => []
  | f + 1, b :: rest =>
    if b < 0x80 then
      Char.ofNat b :: utf8DecodeF f rest
    else if b < 0xc2 then
      '�' :: utf8DecodeF f rest
    else if b < 0xe0 then
      match rest with
      | c1 :: rest' =>
        if utf8Cont 0x80 0xbf c1 then
          Char.ofNat ((b - 0xc0) * 64 + (c1 - 0x80)) :: utf8DecodeF f rest'
        else '�' :: utf8DecodeF f rest
      | [] => ['�']
    else if b < 0xf0 then
      let lo := if b = 0xe0 then 0xa0 else 0x80
      let hi := if b = 0xed then 0x9f else 0xbf
      match rest with
      | c1 :: rest' =>
        if utf8Cont lo hi c1 then
          match rest' with
          | c2 :: rest'' =>
            if utf8Cont 0x80 0xbf c2 then
              Char.ofNat ((b - 0xe0) * 4096 + (c1 - 0x80) * 64 + (c2 - 0x80)) ::
                utf8DecodeF f rest''
            else '�' :: utf8DecodeF f rest'
          | [] => ['�']
        else '�' :: utf8DecodeF f rest
      | [] => ['�']
    else if b < 0xf5 then
      let lo := if b = 0xf0 then 0x90 else 0x80
      let hi := if b = 0xf4 then 0x8f else 0xbf
      match rest with
      | c1 :: rest' =>
        if utf8Cont lo hi c1 then
          match rest' with
          | c2 :: rest'' =>
            if utf8Cont 0x80 0xbf c2 then
              match rest'' with
              | c3 :: rest''' =>
                if utf8Cont 0x80 0xbf c3 then
                  Char.ofNat ((b - 0xf0) * 262144 + (c1 - 0x80) * 4096 +
                      (c2 - 0x80) * 64 + (c3 - 0x80)) :: utf8DecodeF f rest'''
                else '�' :: utf8DecodeF f rest''
              | [] => ['�']
            else '�' :: utf8DecodeF f rest'
          | [] => ['�']
        else '�' :: utf8DecodeF f rest
      | [] => ['�']
    else
      '�' :: utf8DecodeF f rest

/-- WHATWG UTF-8 decoding of a byte list. -/
def utf8Decode (bytes : List Nat) : List Char := utf8DecodeF bytes.length bytes

/-- Windows-1252 mapping for the bytes `0x80`–`0x9f` (WHATWG index;
unmapped positions decode to the identical code point). -/
def windows1252High (b : Nat) : Nat :=
  match b with
  | 0x80 => 0x20ac | 0x82 => 0x201a | 0x83 => 0x0192 | 0x84 => 0x201e
  | 0x85 => 0x2026 | 0x86 => 0x2020 | 0x87 => 0x2021 | 0x88 => 0x02c6
  | 0x89 => 0x2030 | 0x8a => 0x0160 | 0x8b => 0x2039 | 0x8c => 0x0152
  | 0x8e => 0x017d | 0x91 => 0x2018 | 0x92 => 0x2019 | 0x93 => 0x201c
  | 0x94 => 0x201d | 0x95 => 0x2022 | 0x96 => 0x2013 | 0x97 => 0x2014
  | 0x98 => 0x02dc | 0x99 => 0x2122 | 0x9a => 0x0161 | 0x9b => 0x203a
  | 0x9c => 0x0153 | 0x9e => 0x017e | 0x9f => 0x0178
  | _ => b

/-- Windows-1252 (the WHATWG decoder behind the labels `latin1`, `ascii`,
`iso-8859-1`, ...): single-byte, never fails. -/
def windows1252Decode (bytes : List Nat) : List Char :=
  bytes.map fun b =>
    if b < 0x80 then Char.ofNat b
    else if b < 0xa0 then Char.ofNat (windows1252High b)
    else Char.ofNat b

/-- The text encodings modelled here. -/
inductive EncKind where
  | utf8
  | windows1252
deriving DecidableEq

/-- ASCII lowercasing of an encoding label (the label normalisation the
WHATWG `TextDecoder` constructor performs; its leading/trailing-whitespace
trimming is omitted, no trimmed label occurs in this development). -/
def asciiLower (s : String) : String :=
  ⟨s.data.map fun c =>
    if 'A' ≤ c && c ≤ 'Z' then Char.ofNat (c.toNat + 32) else c⟩

/-- WHATWG label lookup for the encodings this development exercises.
Labels of further standard encodings (utf-16 variants etc.) are outside
the model, and no theorem below relies on a label outside this table
being rejected. -/
def encodingForLabel (label : String) : Option EncKind :=
  match asciiLower label with
  | "unicode-1-1-utf-8" | "unicode11utf8" | "unicode20utf8" | "utf-8" | "utf8"
  | "x-unicode20utf8" => some .utf8
  | "ansi_x3.4-1968" | "ascii" | "cp1252" | "cp819" | "csisolatin1" | "ibm819"
  | "iso-8859-1" | "iso8859-1" | "iso88591" | "iso_8859-1" | "iso_8859-1:1987"
  | "l1" | "latin1" | "us-ascii" | "windows-1252" | "x-cp1252" => some .windows1252
  | _ => none

/-- Decode `bytes` with the given encoding (the `TextDecoder.decode` step). -/
def textDecode (kind : EncKind) (bytes : List Nat) : String :=
  match kind with
  | .utf8 => ⟨utf8Decode bytes⟩
  | .windows1252 => ⟨windows1252Decode bytes⟩

/-- UTF-16 code-unit count of a string (JS `string.length`). -/
def jsStringLength (s : String) : Nat :=
  (s.data.map fun c => if c.toNat < 0x10000 then 1 else 2).sum

/-- `TextEncoder.encodeInto` against a destination of capacity `cap` bytes:
encodes leading characters while their complete UTF-8 sequences fit, and
returns the emitted bytes together with the byte count written. -/
def encodeInto : List Char → Nat → List Nat × Nat
  | [], _ => ([], 0)
  | c :: rest, cap =>
    let e := utf8EncodeChar c
    if e.length ≤ cap then
      let (bs, w) := encodeInto rest (cap - e.length)
      (e ++ bs, w + e.length)
    else ([], 0)

/-- A constructed typed-array view over an `ArrayBuffer` (used as the
aliased-view form of a `BufferSource`). -/
structure BufferView where
  buffer : List Nat
  byteOffset : Nat
  byteLength : Nat
deriving DecidableEq

/-- A `BufferSource`: a raw `ArrayBuffer` or an `ArrayBuffer.isView` value. -/
inductive BufferSource where
  | arrayBuffer (data : List Nat)
  | view (v : BufferView)
deriving DecidableEq

/-- The `ByteBuf` state. `viewOffset`/`viewLength` are the inherited
`DataView` window (`super.byteOffset`/`super.byteLength`); `pos` is the
private `#byteOffset` cursor field, which the source initialises to
`super.byteOffset`. -/
structure ByteBuf where
  buffer : List Nat
  viewOffset : Nat
  viewLength : Nat
  pos : Nat
deriving DecidableEq

/-- Well-formedness of a view: its window lies inside the buffer. Every
`ByteBuf` produced by the constructor satisfies it. -/
def ByteBuf.wf (b : ByteBuf) : Prop := b.viewOffset + b.viewLength ≤ b.buffer.length

/-- `new DataView(buffer, byteOffset?, byteLength?)` (ES semantics: offset
defaults to 0, omitted length runs to the end of the buffer, a window
outside the buffer is a `RangeError`), composed with the `ByteBuf` field
initialiser `#byteOffset = super.byteOffset`. -/
def dataViewNew (buffer : List Nat) (byteOffset byteLength : Option Nat) :
    Except JsErr ByteBuf :=
  let off := byteOffset.getD 0
  if off > buffer.length then .error .outOfBounds
  else
    match byteLength with
    | none => .ok ⟨buffer, off, buffer.length - off, off⟩
    | some len =>
      if off + len > buffer.length then .error .outOfBounds
      else .ok ⟨buffer, off, len, off⟩

namespace ByteBuf

/-- `ByteBuf.from(source, byteOffset?, byteLength?)`: for a view source the
offsets compose; a given length is clamped by `Math.min(source.byteLength,
byteLength)`. (`from` is a Lean keyword, hence the primed name.) -/
def from' (source : BufferSource) (byteOffset byteLength : Option Nat) :
    Except JsErr ByteBuf :=
  match source with
  | .arrayBuffer data =>
    match byteLength with
    | none => dataViewNew data byteOffset none
    | some len => dataViewNew data byteOffset (some (min data.length len))
  | .view v =>
    let off := v.byteOffset + byteOffset.getD 0
    match byteLength with
    | none => dataViewNew v.buffer (some off) none
    | some len => dataViewNew v.buffer (some off) (some (min v.byteLength len))

/-- The `byteOffset` getter: returns the cursor field. -/
def byteOffset (b : ByteBuf) : Nat := b.pos

/-- The `byteLength` of the inherited `DataView`. -/
def byteLength (b : ByteBuf) : Nat := b.viewLength

/-- `bytesRemaining` getter: `byteLength - #byteOffset`. The subtraction is
over `Int` because the cursor may be skipped past the end. -/
def bytesRemaining (b : ByteBuf) : Int := (b.viewLength : Int) - b.pos

/-- `skip(byteLength)`. -/
def skip (b : ByteBuf) (byteLength : Nat) : ByteBuf := { b with pos := b.pos + byteLength }

/-- `reset()`: `#byteOffset = super.byteOffset`. -/
def reset (b : ByteBuf) : ByteBuf := { b with pos := b.viewOffset }

/-- Read `n` raw bytes at view-relative offset `off` (`DataView` bounds
check, then the byte contents). -/
def loadBytes (b : ByteBuf) (off n : Nat) : Except JsErr (List Nat) :=
  if off + n ≤ b.viewLength then
    .ok ((List.range n).map fun i => b.buffer.getD (b.viewOffset + off + i) 0)
  else .error .outOfBounds

/-- Store raw bytes `bs` at view-relative offset `off` (`DataView` bounds
check against the view, then the writes). -/
def storeBytes (b : ByteBuf) (off : Nat) (bs : List Nat) :
    (Except JsErr Unit) × ByteBuf :=
  if off + bs.length ≤ b.viewLength then
    (.ok (), { b with buffer := writeList b.buffer (b.viewOffset + off) bs })
  else (.error .outOfBounds, b)

/-- `DataView`-style unsigned load of `w` bytes with an endianness flag
(big-endian when the flag is false, as when the JS argument is omitted). -/
def loadUint (b : ByteBuf) (off w : Nat) (littleEndian : Bool) : Except JsErr Nat :=
  match b.loadBytes off w with
  | .error e => .error e
  | .ok bs => .ok (leValue (if littleEndian then bs else bs.reverse))

/-- `DataView`-style store of the unsigned value `u` over `w` bytes. -/
def storeUint (b : ByteBuf) (off w : Nat) (littleEndian : Bool) (u : Nat) :
    (Except JsErr Unit) × ByteBuf :=
  b.storeBytes off (if littleEndian then leBytes w u else (leBytes w u).reverse)

/-- `getUint8(byteOffset)`. -/
def getUint8 (b : ByteBuf) (byteOffset : Nat) : Except JsErr Nat :=
  if byteOffset + 1 ≤ b.viewLength then .ok (b.buffer.getD (b.viewOffset + byteOffset) 0)
  else .error .outOfBounds

/-- `getInt8(byteOffset)`. -/
def getInt8 (b : ByteBuf) (byteOffset : Nat) : Except JsErr Int :=
  match b.getUint8 byteOffset with
  | .error e => .error e
  | .ok u => .ok (toSigned 8 u)

/-- `setUint8(byteOffset, value)` (`ToUint8` wraps modulo 256). -/
def setUint8 (b : ByteBuf) (byteOffset : Nat) (value : Int) :
    (Except JsErr Unit) × ByteBuf :=
  if byteOffset + 1 ≤ b.viewLength then
    (.ok (), { b with buffer := b.buffer.set (b.viewOffset + byteOffset) (toUnsigned 8 value) })
  else (.error .outOfBounds, b)

/-- `setInt8(byteOffset, value)` (`ToInt8` stores the same byte as `ToUint8`). -/
def setInt8 (b : ByteBuf) (byteOffset : Nat) (value : Int) :
    (Except JsErr Unit) × ByteBuf :=
  b.setUint8 byteOffset value

/-- `getBool(byteOffset)`: `getInt8(byteOffset) !== 0`. -/
def getBool (b : ByteBuf) (byteOffset : Nat) : Except JsErr Bool :=
  match b.getInt8 byteOffset with
  | .error e => .error e
  | .ok v => .ok (v != 0)

/-- `setBool(byteOffset, value)`. -/
def setBool (b : ByteBuf) (byteOffset : Nat) (value : Bool) :
    (Except JsErr Unit) × ByteBuf :=
  b.setUint8 byteOffset (if value then 1 else 0)

/-- `readBool()`: `getInt8(#byteOffset++) !== 0` — the post-increment
mutates the cursor before `getInt8` can throw. -/
def readBool (b : ByteBuf) : (Except JsErr Bool) × ByteBuf :=
  (b.getBool b.pos, { b with pos := b.pos + 1 })

/-- `readInt8()` (cursor post-incremented before the access, as in the
source's `getInt8(this.#byteOffset++)`). -/
def readInt8 (b : ByteBuf) : (Except JsErr Int) × ByteBuf :=
  (b.getInt8 b.pos, { b with pos := b.pos + 1 })

/-- `readUint8()` (same post-increment pattern). -/
def readUint8 (b : ByteBuf) : (Except JsErr Nat) × ByteBuf :=
  (b.getUint8 b.pos, { b with pos := b.pos + 1 })

/-- `writeBool(value)` (post-increment: cursor advances even if the store
throws). -/
def writeBool (b : ByteBuf) (value : Bool) : (Except JsErr Unit) × ByteBuf :=
  let (r, b') := b.setBool b.pos value
  (r, { b' with pos := b'.pos + 1 })

/-- `writeInt8(value)`. -/
def writeInt8 (b : ByteBuf) (value : Int) : (Except JsErr Unit) × ByteBuf :=
  let (r, b') := b.setInt8 b.pos value
  (r, { b' with pos := b'.pos + 1 })

/-- `writeUint8(value)`. -/
def writeUint8 (b : ByteBuf) (value : Int) : (Except JsErr Unit) × ByteBuf :=
  let (r, b') := b.setUint8 b.pos value
  (r, { b' with pos := b'.pos + 1 })

/-- `getUint16(byteOffset, littleEndian?)`. -/
def getUint16 (b : ByteBuf) (byteOffset : Nat) (littleEndian : Bool) : Except JsErr Nat :=
  b.loadUint byteOffset 2 littleEndian

/-- `getInt16(byteOffset, littleEndian?)`. -/
def getInt16 (b : ByteBuf) (byteOffset : Nat) (littleEndian : Bool) : Except JsErr Int :=
  match b.loadUint byteOffset 2 littleEndian with
  | .error e => .error e
  | .ok u => .ok (toSigned 16 u)

/-- `setUint16(byteOffset, value, littleEndian?)` (`ToUint16` wraps). -/
def setUint16 (b : ByteBuf) (byteOffset : Nat) (value : Int) (littleEndian : Bool) :
    (Except JsErr Unit) × ByteBuf :=
  b.storeUint byteOffset 2 littleEndian (toUnsigned 16 value)

/-- `setInt16(byteOffset, value, littleEndian?)` (stores the same bytes). -/
def setInt16 (b : ByteBuf) (byteOffset : Nat) (value : Int) (littleEndian : Bool) :
    (Except JsErr Unit) × ByteBuf :=
  b.storeUint byteOffset 2 littleEndian (toUnsigned 16 value)

/-- `readInt16(littleEndian?)`: get at the cursor, then advance by 2 (the
advance does not happen if the get throws). -/
def readInt16 (b : ByteBuf) (littleEndian : Bool) : (Except JsErr Int) × ByteBuf :=
  match b.getInt16 b.pos littleEndian with
  | .error e => (.error e, b)
  | .ok v => (.ok v, { b with pos := b.pos + 2 })

/-- `readUint16(littleEndian?)`. -/
def readUint16 (b : ByteBuf) (littleEndian : Bool) : (Except JsErr Nat) × ByteBuf :=
  match b.getUint16 b.pos littleEndian with
  | .error e => (.error e, b)
  | .ok v => (.ok v, { b with pos := b.pos + 2 })

/-- `writeInt16(value, littleEndian?)`. -/
def writeInt16 (b : ByteBuf) (value : Int) (littleEndian : Bool) :
    (Except JsErr Unit) × ByteBuf :=
  match b.setInt16 b.pos value littleEndian with
  | (.error e, b') => (.error e, b')
  | (.ok _, b') => (.ok (), { b' with pos := b'.pos + 2 })

/-- `writeUint16(value, littleEndian?)`. -/
def writeUint16 (b : ByteBuf) (value : Int) (littleEndian : Bool) :
    (Except JsErr Unit) × ByteBuf :=
  match b.setUint16 b.pos value littleEndian with
  | (.error e, b') => (.error e, b')
  | (.ok _, b') => (.ok (), { b' with pos := b'.pos + 2 })

/-- `getUint32(byteOffset, littleEndian?)`. -/
def getUint32 (b : ByteBuf) (byteOffset : Nat) (littleEndian : Bool) : Except JsErr Nat :=
  b.loadUint byteOffset 4 littleEndian

/-- `getInt32(byteOffset, littleEndian?)`. -/
def getInt32 (b : ByteBuf) (byteOffset : Nat) (littleEndian : Bool) : Except JsErr Int :=
  match b.loadUint byteOffset 4 littleEndian with
  | .error e => .error e
  | .ok u => .ok (toSigned 32 u)

/-- `setUint32(byteOffset, value, littleEndian?)`. -/
def setUint32 (b : ByteBuf) (byteOffset : Nat) (value : Int) (littleEndian : Bool) :
    (Except JsErr Unit) × ByteBuf :=
  b.storeUint byteOffset 4 littleEndian (toUnsigned 32 value)

/-- `setInt32(byteOffset, value, littleEndian?)`. -/
def setInt32 (b : ByteBuf) (byteOffset : Nat) (value : Int) (littleEndian : Bool) :
    (Except JsErr Unit) × ByteBuf :=
  b.storeUint byteOffset 4 littleEndian (toUnsigned 32 value)

/-- `readInt32(littleEndian?)`. -/
def readInt32 (b : ByteBuf) (littleEndian : Bool) : (Except JsErr Int) × ByteBuf :=
  match b.getInt32 b.pos littleEndian with
  | .error e => (.error e, b)
  | .ok v => (.ok v, { b with pos := b.pos + 4 })

/-- `readUint32(littleEndian?)`. -/
def readUint32 (b : ByteBuf) (littleEndian : Bool) : (Except JsErr Nat) × ByteBuf :=
  match b.getUint32 b.pos littleEndian with
  | .error e => (.error e, b)
  | .ok v => (.ok v, { b with pos := b.pos + 4 })

/-- `writeInt32(value, littleEndian?)`. -/
def writeInt32 (b : ByteBuf) (value : Int) (littleEndian : Bool) :
    (Except JsErr Unit) × ByteBuf :=
  match b.setInt32 b.pos value littleEndian with
  | (.error e, b') => (.error e, b')
  | (.ok _, b') => (.ok (), { b' with pos := b'.pos + 4 })

/-- `writeUint32(value, littleEndian?)`. -/
def writeUint32 (b : ByteBuf) (value : Int) (littleEndian : Bool) :
    (Except JsErr Unit) × ByteBuf :=
  match b.setUint32 b.pos value littleEndian with
  | (.error e, b') => (.error e, b')
  | (.ok _, b') => (.ok (), { b' with pos := b'.pos + 4 })

/-- `getFloat32(byteOffset, littleEndian?)` (exact IEEE-754 decode). -/
def getFloat32 (b : ByteBuf) (byteOffset : Nat) (littleEndian : Bool) :
    Except JsErr FloatVal :=
  match b.loadUint byteOffset 4 littleEndian with
  | .error e => .error e
  | .ok u => .ok (decodeFloat 8 23 u)

/-- `getFloat64(byteOffset, littleEndian?)`. -/
def getFloat64 (b : ByteBuf) (byteOffset : Nat) (littleEndian : Bool) :
    Except JsErr FloatVal :=
  match b.loadUint byteOffset 8 littleEndian with
  | .error e => .error e
  | .ok u => .ok (decodeFloat 11 52 u)

/-- `readFloat32(littleEndian?)`. -/
def readFloat32 (b : ByteBuf) (littleEndian : Bool) : (Except JsErr FloatVal) × ByteBuf :=
  match b.getFloat32 b.pos littleEndian with
  | .error e => (.error e, b)
  | .ok v => (.ok v, { b with pos := b.pos + 4 })

/-- `readFloat64(littleEndian?)`. -/
def readFloat64 (b : ByteBuf) (littleEndian : Bool) : (Except JsErr FloatVal) × ByteBuf :=
  match b.getFloat64 b.pos littleEndian with
  | .error e => (.error e, b)
  | .ok v => (.ok v, { b with pos := b.pos + 8 })

/-- `setFloat32(byteOffset, value, littleEndian?)`: the store rounds its
JS `number` argument to float32. -/
def setFloat32 (b : ByteBuf) (byteOffset : Nat) (value : FloatVal) (littleEndian : Bool) :
    (Except JsErr Unit) × ByteBuf :=
  b.storeUint byteOffset 4 littleEndian (encodeFloat 8 23 value)

/-- `setFloat64(byteOffset, value, littleEndian?)`. -/
def setFloat64 (b : ByteBuf) (byteOffset : Nat) (value : FloatVal) (littleEndian : Bool) :
    (Except JsErr Unit) × ByteBuf :=
  b.storeUint byteOffset 8 littleEndian (encodeFloat 11 52 value)

/-- `writeFloat32(value, littleEndian?)`: set at the cursor, then advance
by 4 (not reached if the set throws). -/
def writeFloat32 (b : ByteBuf) (value : FloatVal) (littleEndian : Bool) :
    (Except JsErr Unit) × ByteBuf :=
  match b.setFloat32 b.pos value littleEndian with
  | (.error e, b') => (.error e, b')
  | (.ok _, b') => (.ok (), { b' with pos := b'.pos + 4 })

/-- `writeFloat64(value, littleEndian?)`. -/
def writeFloat64 (b : ByteBuf) (value : FloatVal) (littleEndian : Bool) :
    (Except JsErr Unit) × ByteBuf :=
  match b.setFloat64 b.pos value littleEndian with
  | (.error e, b') => (.error e, b')
  | (.ok _, b') => (.ok (), { b' with pos := b'.pos + 8 })

/-- `getBigUint64(byteOffset, littleEndian?)`. -/
def getBigUint64 (b : ByteBuf) (byteOffset : Nat) (littleEndian : Bool) : Except JsErr Int :=
  match b.loadUint byteOffset 8 littleEndian with
  | .error e => .error e
  | .ok u => .ok (u : Int)

/-- `getBigInt64(byteOffset, littleEndian?)`. -/
def getBigInt64 (b : ByteBuf) (byteOffset : Nat) (littleEndian : Bool) : Except JsErr Int :=
  match b.loadUint byteOffset 8 littleEndian with
  | .error e => .error e
  | .ok u => .ok (toSigned 64 u)

/-- `setBigUint64(byteOffset, value, littleEndian?)` (`ToBigUint64` wraps
modulo `2^64`). -/
def setBigUint64 (b : ByteBuf) (byteOffset : Nat) (value : Int) (littleEndian : Bool) :
    (Except JsErr Unit) × ByteBuf :=
  b.storeUint byteOffset 8 littleEndian (toUnsigned 64 value)

/-- `setBigInt64(byteOffset, value, littleEndian?)` (`ToBigInt64` stores the
same 8 bytes as `ToBigUint64`). -/
def setBigInt64 (b : ByteBuf) (byteOffset : Nat) (value : Int) (littleEndian : Bool) :
    (Except JsErr Unit) × ByteBuf :=
  b.storeUint byteOffset 8 littleEndian (toUnsigned 64 value)

/-- `readBigInt64(littleEndian?)`. -/
def readBigInt64 (b : ByteBuf) (littleEndian : Bool) : (Except JsErr Int) × ByteBuf :=
  match b.getBigInt64 b.pos littleEndian with
  | .error e => (.error e, b)
  | .ok v => (.ok v, { b with pos := b.pos + 8 })

/-- `readBigUint64(littleEndian?)`. -/
def readBigUint64 (b : ByteBuf) (littleEndian : Bool) : (Except JsErr Int) × ByteBuf :=
  match b.getBigUint64 b.pos littleEndian with
  | .error e => (.error e, b)
  | .ok v => (.ok v, { b with pos := b.pos + 8 })

/-- `writeBigInt64(value, littleEndian?)`. -/
def writeBigInt64 (b : ByteBuf) (value : Int) (littleEndian : Bool) :
    (Except JsErr Unit) × ByteBuf :=
  match b.setBigInt64 b.pos value littleEndian with
  | (.error e, b') => (.error e, b')
  | (.ok _, b') => (.ok (), { b' with pos := b'.pos + 8 })

/-- `writeBigUint64(value, littleEndian?)`. -/
def writeBigUint64 (b : ByteBuf) (value : Int) (littleEndian : Bool) :
    (Except JsErr Unit) × ByteBuf :=
  match b.setBigUint64 b.pos value littleEndian with
  | (.error e, b') => (.error e, b')
  | (.ok _, b') => (.ok (), { b' with pos := b'.pos + 8 })

/-- `getInt64(byteOffset, littleEndian?)`: `Number(getBigInt64(...))` — the
`Number` conversion rounds to the nearest float64. -/
def getInt64 (b : ByteBuf) (byteOffset : Nat) (littleEndian : Bool) : Except JsErr Int :=
  match b.getBigInt64 byteOffset littleEndian with
  | .error e => .error e
  | .ok z => .ok (f64roundInt z)

/-- `getUint64(byteOffset, littleEndian?)`: `Number(getBigUint64(...))`. -/
def getUint64 (b : ByteBuf) (byteOffset : Nat) (littleEndian : Bool) : Except JsErr Int :=
  match b.getBigUint64 byteOffset littleEndian with
  | .error e => .error e
  | .ok z => .ok (f64roundInt z)

/-- `setInt64(byteOffset, value, littleEndian?)`:
`setBigInt64(byteOffset, BigInt(value), ...)`. The `value` parameter is a
JS `number`, so an integral argument reaches `BigInt` as its nearest
float64; `f64roundInt` models that caller-side conversion. -/
def setInt64 (b : ByteBuf) (byteOffset : Nat) (value : Int) (littleEndian : Bool) :
    (Except JsErr Unit) × ByteBuf :=
  b.setBigInt64 byteOffset (f64roundInt value) littleEndian

/-- `setUint64(byteOffset, value, littleEndian?)`. -/
def setUint64 (b : ByteBuf) (byteOffset : Nat) (value : Int) (littleEndian : Bool) :
    (Except JsErr Unit) × ByteBuf :=
  b.setBigUint64 byteOffset (f64roundInt value) littleEndian

/-- `readInt64(littleEndian?)`. -/
def readInt64 (b : ByteBuf) (littleEndian : Bool) : (Except JsErr Int) × ByteBuf :=
  match b.getInt64 b.pos littleEndian with
  | .error e => (.error e, b)
  | .ok v => (.ok v, { b with pos := b.pos + 8 })

/-- `readUint64(littleEndian?)`. -/
def readUint64 (b : ByteBuf) (littleEndian : Bool) : (Except JsErr Int) × ByteBuf :=
  match b.getUint64 b.pos littleEndian with
  | .error e => (.error e, b)
  | .ok v => (.ok v, { b with pos := b.pos + 8 })

/-- `writeInt64(value, littleEndian?)`. -/
def writeInt64 (b : ByteBuf) (value : Int) (littleEndian : Bool) :
    (Except JsErr Unit) × ByteBuf :=
  match b.setInt64 b.pos value littleEndian with
  | (.error e, b') => (.error e, b')
  | (.ok _, b') => (.ok (), { b' with pos := b'.pos + 8 })

/-- `writeUint64(value, littleEndian?)`. -/
def writeUint64 (b : ByteBuf) (value : Int) (littleEndian : Bool) :
    (Except JsErr Unit) × ByteBuf :=
  match b.setUint64 b.pos value littleEndian with
  | (.error e, b') => (.error e, b')
  | (.ok _, b') => (.ok (), { b' with pos := b'.pos + 8 })

/-- The decoding loop of `getVarInt`. `fuel` is the number of loop
iterations still allowed (`maxByteLength - byteLength` in the source,
where the guard `byteLength < maxByteLength` is checked before each
iteration); `value`, `byteLength` and `bitShift` are the loop state.
Each iteration reads `getUint8(byteOffset + byteLength++)`, accumulates
`value |= (byte & 0x7f) << bitShift` with JS int32 semantics, and stops
on a clear continuation bit; fuel exhaustion is the source's
`RangeError` for an overlong VarInt. -/
def getVarIntAux (b : ByteBuf) (byteOffset : Nat) :
    Nat → Int → Nat → Nat → Except JsErr IntResult
  | 0, _, _, _ => .error .lengthExceeded
  | fuel + 1, value, byteLength, bitShift =>
    match b.getUint8 (byteOffset + byteLength) with
    | .error e => .error e
    | .ok byte =>
      let value' := jsOr value (jsShl (jsAnd byte 0x7f) bitShift)
      if jsAnd byte 0x80 = 0 then .ok ⟨value', byteLength + 1⟩
      else getVarIntAux b byteOffset fuel value' (byteLength + 1) (bitShift + 7)

/-- `getVarInt(byteOffset, maxByteLength = 10)`. -/
def getVarInt (b : ByteBuf) (byteOffset : Nat) (maxByteLength : Option Nat) :
    Except JsErr IntResult :=
  getVarIntAux b byteOffset (maxByteLength.getD 10) 0 0 0

/-- `readVarInt(maxByteLength?)`: positional get at the cursor, then
advance by the consumed byte length (not reached if the get throws). -/
def readVarInt (b : ByteBuf) (maxByteLength : Option Nat) :
    (Except JsErr Int) × ByteBuf :=
  match b.getVarInt b.pos maxByteLength with
  | .error e => (.error e, b)
  | .ok r => (.ok r.value, { b with pos := b.pos + r.byteLength })

/-- The encoding loop of `setVarInt`. After the first JS iteration the
working value is `value >>> 7`, a plain nonnegative number, so the loop is
modelled on the unsigned 32-bit image `u` of the argument; `byteLength` is
the loop counter (starting at 1) and `fuel` the remaining iterations
(`maxByteLength` in total). Each iteration stores `(u & 0x7f)`, with
`0x80` added when `u >>> 7` is nonzero, and returns `byteLength` once the
value is exhausted; fuel exhaustion is the source's `RangeError`. The
bytes already stored remain in the buffer on that error path. -/
def setVarIntAux (b : ByteBuf) :
    Nat → Nat → Nat → Nat → (Except JsErr Nat) × ByteBuf
  | _, _, 0, _ => (.error .lengthExceeded, b)
  | byteOffset, u, fuel + 1, byteLength =>
    let low := u % 128
    let u' := u / 128
    let byte := if u' ≠ 0 then low + 128 else low
    match b.setUint8 byteOffset (byte : Int) with
    | (.error e, b') => (.error e, b')
    | (.ok _, b') =>
      if u' = 0 then (.ok byteLength, b')
      else setVarIntAux b' (byteOffset + 1) u' fuel (byteLength + 1)

/-- `setVarInt(byteOffset, value, maxByteLength = 10)`. The first loop
operations `value & 0x7f` / `value >>>= 7` act on the `ToUint32` image of
the argument, so the loop starts from `toUint32 value`. -/
def setVarInt (b : ByteBuf) (byteOffset : Nat) (value : Int) (maxByteLength : Option Nat) :
    (Except JsErr Nat) × ByteBuf :=
  setVarIntAux b byteOffset (toUint32 value) (maxByteLength.getD 10) 1

/-- `writeVarInt(value, maxByteLength?)`. -/
def writeVarInt (b : ByteBuf) (value : Int) (maxByteLength : Option Nat) :
    (Except JsErr Unit) × ByteBuf :=
  match b.setVarInt b.pos value maxByteLength with
  | (.error e, b') => (.error e, b')
  | (.ok len, b') => (.ok (), { b' with pos := b'.pos + len })

/-- `getVarUint(byteOffset, maxByteLength?)`: the plain decoder with the
value reinterpreted by `value >>> 0`. -/
def getVarUint (b : ByteBuf) (byteOffset : Nat) (maxByteLength : Option Nat) :
    Except JsErr IntResult :=
  match b.getVarInt byteOffset maxByteLength with
  | .error e => .error e
  | .ok r => .ok ⟨(toUint32 r.value : Int), r.byteLength⟩

/-- `readVarUint(maxByteLength?)`. -/
def readVarUint (b : ByteBuf) (maxByteLength : Option Nat) :
    (Except JsErr Int) × ByteBuf :=
  match b.getVarUint b.pos maxByteLength with
  | .error e => (.error e, b)
  | .ok r => (.ok r.value, { b with pos := b.pos + r.byteLength })

/-- `setVarUint(byteOffset, value, maxByteLength?)`:
`setVarInt(byteOffset, value >>> 0, ...)`. -/
def setVarUint (b : ByteBuf) (byteOffset : Nat) (value : Int) (maxByteLength : Option Nat) :
    (Except JsErr Nat) × ByteBuf :=
  b.setVarInt byteOffset (toUint32 value : Int) maxByteLength

/-- `writeVarUint(value, maxByteLength?)`: positional set at the cursor,
then advance by the returned byte length (not reached if the set throws). -/
def writeVarUint (b : ByteBuf) (value : Int) (maxByteLength : Option Nat) :
    (Except JsErr Unit) × ByteBuf :=
  match b.setVarUint b.pos value maxByteLength with
  | (.error e, b') => (.error e, b')
  | (.ok len, b') => (.ok (), { b' with pos := b'.pos + len })

/-- `getVarZint(byteOffset, maxByteLength?)`: plain decode, then the
source's zigzag inversion `(value >> 1) ^ -(value & 1)` (note the
sign-propagating `>>`). -/
def getVarZint (b : ByteBuf) (byteOffset : Nat) (maxByteLength : Option Nat) :
    Except JsErr IntResult :=
  match b.getVarInt byteOffset maxByteLength with
  | .error e => .error e
  | .ok r => .ok ⟨jsXor (jsSar r.value 1) (-(jsAnd r.value 1)), r.byteLength⟩

/-- `readVarZint(maxByteLength?)`. -/
def readVarZint (b : ByteBuf) (maxByteLength : Option Nat) :
    (Except JsErr Int) × ByteBuf :=
  match b.getVarZint b.pos maxByteLength with
  | .error e => (.error e, b)
  | .ok r => (.ok r.value, { b with pos := b.pos + r.byteLength })

/-- `setVarZint(byteOffset, value, maxByteLength?)`:
`setVarInt(byteOffset, (value >> 31) ^ (value << 1), ...)`. -/
def setVarZint (b : ByteBuf) (byteOffset : Nat) (value : Int) (maxByteLength : Option Nat) :
    (Except JsErr Nat) × ByteBuf :=
  b.setVarInt byteOffset (jsXor (jsSar value 31) (jsShl value 1)) maxByteLength

/-- `writeVarZint(value, maxByteLength?)`. -/
def writeVarZint (b : ByteBuf) (value : Int) (maxByteLength : Option Nat) :
    (Except JsErr Unit) × ByteBuf :=
  match b.setVarZint b.pos value maxByteLength with
  | (.error e, b') => (.error e, b')
  | (.ok len, b') => (.ok (), { b' with pos := b'.pos + len })

/-- `new Uint8Array(buffer, byteOffset, byteLength?)` (ES semantics: with
the length omitted the view runs to the end of the buffer; a region
outside the buffer is a `RangeError`). The aliased region is returned by
content. -/
def uint8ArrayNew (data : List Nat) (byteOffset : Nat) (byteLength : Option Nat) :
    Except JsErr (List Nat) :=
  match byteLength with
  | none =>
    if byteOffset ≤ data.length then .ok (data.drop byteOffset)
    else .error .outOfBounds
  | some len =>
    if byteOffset + len ≤ data.length then .ok ((data.drop byteOffset).take len)
    else .error .outOfBounds

/-- `getUint8Array(byteOffset, byteLength?)`:
`new Uint8Array(this.buffer, super.byteOffset + byteOffset, byteLength)` —
note the bound is the underlying buffer, not the view. -/
def getUint8Array (b : ByteBuf) (byteOffset : Nat) (byteLength : Option Nat) :
    Except JsErr (List Nat) :=
  uint8ArrayNew b.buffer (b.viewOffset + byteOffset) byteLength

/-- `readUint8Array(byteLength?)`: positional get at the cursor, then
advance by the byte length of the resulting view. -/
def readUint8Array (b : ByteBuf) (byteLength : Option Nat) :
    (Except JsErr (List Nat)) × ByteBuf :=
  match b.getUint8Array b.pos byteLength with
  | .error e => (.error e, b)
  | .ok v => (.ok v, { b with pos := b.pos + v.length })

/-- `setUint8Array(byteOffset, value)`: obtains the aliasing destination
view of `value.byteLength` bytes and copies `value` into it (so the copy
lands at buffer index `super.byteOffset + byteOffset`, bounds-checked
against the underlying buffer by the `Uint8Array` constructor). -/
def setUint8Array (b : ByteBuf) (byteOffset : Nat) (value : List Nat) :
    (Except JsErr Unit) × ByteBuf :=
  match b.getUint8Array byteOffset (some value.length) with
  | .error e => (.error e, b)
  | .ok _ =>
    (.ok (), { b with buffer := writeList b.buffer (b.viewOffset + byteOffset) value })

/-- `writeUint8Array(value)`. -/
def writeUint8Array (b : ByteBuf) (value : List Nat) :
    (Except JsErr Unit) × ByteBuf :=
  match b.setUint8Array b.pos value with
  | (.error e, b') => (.error e, b')
  | (.ok _, b') => (.ok (), { b' with pos := b'.pos + value.length })

/-- `new Uint16Array(buffer, byteOffset, length?)` (ES semantics: the byte
offset must be 2-aligned; with the length omitted the rest of the buffer
must have even byte length and the view runs to its end; a region outside
the buffer is a `RangeError`). Elements are read in the platform's byte
order — little-endian on every mainstream engine, which is what this
model fixes. The aliased elements are returned by content. -/
def uint16ArrayNew (data : List Nat) (byteOffset : Nat) (length : Option Nat) :
    Except JsErr (List Nat) :=
  if byteOffset % 2 ≠ 0 then .error .outOfBounds
  else
    let elems : Nat → List Nat := fun n => (List.range n).map fun i =>
      data.getD (byteOffset + 2 * i) 0 + 256 * data.getD (byteOffset + 2 * i + 1) 0
    match length with
    | none =>
      if byteOffset ≤ data.length ∧ (data.length - byteOffset) % 2 = 0 then
        .ok (elems ((data.length - byteOffset) / 2))
      else .error .outOfBounds
    | some len =>
      if byteOffset + 2 * len ≤ data.length then .ok (elems len)
      else .error .outOfBounds

/-- `getUint16Array(byteOffset, byteLength?)`: a given byte length is
floored to an element count, then
`new Uint16Array(this.buffer, super.byteOffset + byteOffset, byteLength)` —
as with `getUint8Array` the bound is the underlying buffer, not the view. -/
def getUint16Array (b : ByteBuf) (byteOffset : Nat) (byteLength : Option Nat) :
    Except JsErr (List Nat) :=
  uint16ArrayNew b.buffer (b.viewOffset + byteOffset) (byteLength.map fun l => l / 2)

/-- `readUint16Array(byteLength?)`: positional get at the cursor, then
advance by the byte length of the resulting view (twice its element
count). -/
def readUint16Array (b : ByteBuf) (byteLength : Option Nat) :
    (Except JsErr (List Nat)) × ByteBuf :=
  match b.getUint16Array b.pos byteLength with
  | .error e => (.error e, b)
  | .ok v => (.ok v, { b with pos := b.pos + 2 * v.length })

/-- `setUint16Array(byteOffset, value)`: obtains the aliasing destination
view of `value.byteLength` bytes (alignment and buffer bounds checked by
the `Uint16Array` constructor) and copies the elements into it, each as
two little-endian bytes. -/
def setUint16Array (b : ByteBuf) (byteOffset : Nat) (value : List Nat) :
    (Except JsErr Unit) × ByteBuf :=
  match b.getUint16Array byteOffset (some (2 * value.length)) with
  | .error e => (.error e, b)
  | .ok _ =>
    (.ok (), { b with buffer := (writeList b.buffer (b.viewOffset + byteOffset)
      (value.map fun e => [e % 256, e / 256 % 256]).flatten) })

/-- `writeUint16Array(value)`: set at the cursor, then advance by the
argument's byte length. -/
def writeUint16Array (b : ByteBuf) (value : List Nat) :
    (Except JsErr Unit) × ByteBuf :=
  match b.setUint16Array b.pos value with
  | (.error e, b') => (.error e, b')
  | (.ok _, b') => (.ok (), { b' with pos := b'.pos + 2 * value.length })

/-- `getString(byteOffset, byteLength?, byteEncoding?)`:
`new TextDecoder(byteEncoding || "utf-8")` (so a missing or empty label
falls back to UTF-8, and an unknown label is a `RangeError`), then decode
of `getUint8Array(byteOffset, byteLength)`. -/
def getString (b : ByteBuf) (byteOffset : Nat) (byteLength : Option Nat)
    (byteEncoding : Option String) : Except JsErr String :=
  let label := match byteEncoding with
    | none => "utf-8"
    | some s => if s = "" then "utf-8" else s
  match encodingForLabel label with
  | none => .error .unsupportedEncoding
  | some kind =>
    match b.getUint8Array byteOffset byteLength with
    | .error e => .error e
    | .ok bytes => .ok (textDecode kind bytes)

/-- `readString(byteLength?, byteEncoding?)`: positional get at the
cursor; afterwards the cursor is set to `this.byteLength` when the length
was omitted, and advanced by `byteLength` otherwise. -/
def readString (b : ByteBuf) (byteLength : Option Nat) (byteEncoding : Option String) :
    (Except JsErr String) × ByteBuf :=
  match b.getString b.pos byteLength byteEncoding with
  | .error e => (.error e, b)
  | .ok v =>
    match byteLength with
    | none => (.ok v, { b with pos := b.viewLength })
    | some len => (.ok v, { b with pos := b.pos + len })

/-- `setString(byteOffset, value, byteEncoding?)`: rejects any truthy
encoding other than `"utf-8"`; otherwise obtains the destination view of
`min(this.byteLength - byteOffset, value.length * 4)` bytes (a negative
size, or a region past the buffer, is a `RangeError` of the `Uint8Array`
constructor) and `encodeInto`s the string, returning the written byte
count. -/
def setString (b : ByteBuf) (byteOffset : Nat) (value : String)
    (byteEncoding : Option String) : (Except JsErr Nat) × ByteBuf :=
  if (match byteEncoding with
      | some s => s != "" && s != "utf-8"
      | none => false) then (.error .unsupportedEncoding, b)
  else
    let cap : Int := min ((b.viewLength : Int) - byteOffset) (jsStringLength value * 4)
    if cap < 0 then (.error .outOfBounds, b)
    else if b.viewOffset + byteOffset + cap.toNat ≤ b.buffer.length then
      let (bs, written) := encodeInto value.data cap.toNat
      (.ok written, { b with buffer := writeList b.buffer (b.viewOffset + byteOffset) bs })
    else (.error .outOfBounds, b)

/-- `writeString(value, byteEncoding?)`: positional set at the cursor,
then advance by the returned written byte length. -/
def writeString (b : ByteBuf) (value : String) (byteEncoding : Option String) :
    (Except JsErr Unit) × ByteBuf :=
  match b.setString b.pos value byteEncoding with
  | (.error e, b') => (.error e, b')
  | (.ok len, b') => (.ok (), { b' with pos := b'.pos + len })

/-- `getVarString(byteOffset, maxByteLength?)`: decode the `VarUint`
length prefix (with the decoder's own default cap of 10, since
`getVarUint` is called without the argument), reject a decoded length
above `maxByteLength` when one is given (a `RangeError`), then
`getString` of that many bytes just after the prefix (default UTF-8
decoding); the reported byte length is prefix plus payload. -/
def getVarString (b : ByteBuf) (byteOffset : Nat) (maxByteLength : Option Nat) :
    Except JsErr StringResult :=
  match b.getVarUint byteOffset none with
  | .error e => .error e
  | .ok r =>
    if (match maxByteLength with
        | some m => decide ((m : Int) < r.value)
        | none => false) then
      .error .lengthExceeded
    else
      match b.getString (byteOffset + r.byteLength) (some r.value.toNat) none with
      | .error e => .error e
      | .ok v => .ok ⟨v, r.value.toNat + r.byteLength⟩

/-- `readVarString(maxByteLength?)`: positional get at the cursor, then
advance by the reported byte length (prefix plus payload). -/
def readVarString (b : ByteBuf) (maxByteLength : Option Nat) :
    (Except JsErr String) × ByteBuf :=
  match b.getVarString b.pos maxByteLength with
  | .error e => (.error e, b)
  | .ok r => (.ok r.value, { b with pos := b.pos + r.byteLength })

/-- `setVarString(byteOffset, value)`: UTF-8 encode the whole string
(`TextEncoder.encode`, no truncation), `setVarInt` the byte count as the
length prefix, `setUint8Array` the encoded bytes after it, and return
prefix length plus payload length. Bytes stored by an earlier step
remain on a later step's error path. -/
def setVarString (b : ByteBuf) (byteOffset : Nat) (value : String) :
    (Except JsErr Nat) × ByteBuf :=
  let encoded := (value.data.map utf8EncodeChar).flatten
  match b.setVarInt byteOffset (encoded.length : Int) none with
  | (.error e, b') => (.error e, b')
  | (.ok delim, b') =>
    match b'.setUint8Array (byteOffset + delim) encoded with
    | (.error e, b'') => (.error e, b'')
    | (.ok _, b'') => (.ok (delim + encoded.length), b'')

/-- `writeVarString(value)`: set at the cursor, then advance by the
returned byte length (not reached if the set throws). -/
def writeVarString (b : ByteBuf) (value : String) :
    (Except JsErr Nat) × ByteBuf :=
  match b.setVarString b.pos value with
  | (.error e, b') => (.error e, b')
  | (.ok len, b') => (.ok len, { b' with pos := b'.pos + len })

end ByteBuf

/-! ### Derived specification predicates -/

/-- Little-endian base-128 groups of `u` with continuation bits: the byte
sequence `setVarInt` emits for an argument whose `ToUint32` image is `u`
(proved below). -/
def varIntBytes (u : Nat) : List Nat :=
  if u < 128 then [u] else (u % 128 + 128) :: varIntBytes (u / 128)
termination_by u
decreasing_by exact Nat.div_lt_self (by omega) (by omega)

/-- What it means for `setVarInt`/`getVarInt` to handle value `v` at
offset `off` with wire bytes `bytes`: the write succeeds returning
`bytes.length`, view window and cursor are untouched, exactly the range
`[viewOffset+off, viewOffset+off+bytes.length)` of the buffer now holds
`bytes` (everything else is preserved), and a `getVarInt` at the same
offset returns `(v, bytes.length)`. -/
def varIntCase (b : ByteBuf) (off : Nat) (v : Int) (bytes : List Nat) : Prop :=
  (b.setVarInt off v none).1 = .ok bytes.length ∧
  (b.setVarInt off v none).2.viewOffset = b.viewOffset ∧
  (b.setVarInt off v none).2.viewLength = b.viewLength ∧
  (b.setVarInt off v none).2.pos = b.pos ∧
  (∀ j, j < bytes.length →
    (b.setVarInt off v none).2.buffer.getD (b.viewOffset + off + j) 0 = bytes.getD j 0) ∧
  (∀ i, i < b.viewOffset + off ∨ b.viewOffset + off + bytes.length ≤ i →
    (b.setVarInt off v none).2.buffer[i]? = b.buffer[i]?) ∧
  (b.setVarInt off v none).2.getVarInt off none = .ok ⟨v, bytes.length⟩

/-- Cursor discipline of the streaming reads: every fixed-width read that
succeeds advances the cursor by exactly its width; the three one-byte
reads advance by 1 unconditionally (post-increment); the variable-length
(`readVarInt`/`readVarUint`/`readVarZint`/`readVarString`) and array
(`readUint8Array`/`readUint16Array`) reads advance by exactly the
consumed byte count; `readString` with a given byteLength advances by it,
and with the byteLength omitted it sets the cursor to the view's
byteLength. -/
def cursorAdvanceReads (b : ByteBuf) : Prop :=
  (∀ le, b.pos + 2 ≤ b.viewLength → ((b.readInt16 le).2.pos = b.pos + 2 ∧
    (b.readUint16 le).2.pos = b.pos + 2)) ∧
  (∀ le, b.pos + 4 ≤ b.viewLength → ((b.readInt32 le).2.pos = b.pos + 4 ∧
    (b.readUint32 le).2.pos = b.pos + 4 ∧ (b.readFloat32 le).2.pos = b.pos + 4)) ∧
  (∀ le, b.pos + 8 ≤ b.viewLength → ((b.readFloat64 le).2.pos = b.pos + 8 ∧
    (b.readInt64 le).2.pos = b.pos + 8 ∧ (b.readUint64 le).2.pos = b.pos + 8 ∧
    (b.readBigInt64 le).2.pos = b.pos + 8 ∧ (b.readBigUint64 le).2.pos = b.pos + 8)) ∧
  ((b.readBool).2.pos = b.pos + 1 ∧ (b.readInt8).2.pos = b.pos + 1 ∧
    (b.readUint8).2.pos = b.pos + 1) ∧
  (∀ m r, b.getVarInt b.pos m = .ok r → (b.readVarInt m).2.pos = b.pos + r.byteLength) ∧
  (∀ m r, b.getVarUint b.pos m = .ok r → (b.readVarUint m).2.pos = b.pos + r.byteLength) ∧
  (∀ m r, b.getVarZint b.pos m = .ok r → (b.readVarZint m).2.pos = b.pos + r.byteLength) ∧
  (∀ n bytes, b.getUint8Array b.pos n = .ok bytes →
    (b.readUint8Array n).2.pos = b.pos + bytes.length) ∧
  (∀ n elems, b.getUint16Array b.pos n = .ok elems →
    (b.readUint16Array n).2.pos = b.pos + 2 * elems.length) ∧
  (∀ len enc v, b.getString b.pos (some len) enc = .ok v →
    (b.readString (some len) enc).2.pos = b.pos + len) ∧
  (∀ enc v, b.getString b.pos none enc = .ok v →
    (b.readString none enc).2.pos = b.viewLength) ∧
  (∀ m r, b.getVarString b.pos m = .ok r →
    (b.readVarString m).2.pos = b.pos + r.byteLength)

/-- Cursor discipline of the streaming writes: fixed-width writes that
succeed advance by their width (one-byte writes unconditionally, by the
post-increment); variable-length, array and string writes advance by
exactly the byte length the positional setter reports. -/
def cursorAdvanceWrites (b : ByteBuf) : Prop :=
  (∀ v : Bool, (b.writeBool v).2.pos = b.pos + 1) ∧
  (∀ v : Int, (b.writeInt8 v).2.pos = b.pos + 1 ∧ (b.writeUint8 v).2.pos = b.pos + 1) ∧
  (∀ (v : Int) le, b.pos + 2 ≤ b.viewLength → ((b.writeInt16 v le).2.pos = b.pos + 2 ∧
    (b.writeUint16 v le).2.pos = b.pos + 2)) ∧
  (∀ (v : Int) le, b.pos + 4 ≤ b.viewLength → ((b.writeInt32 v le).2.pos = b.pos + 4 ∧
    (b.writeUint32 v le).2.pos = b.pos + 4)) ∧
  (∀ (v : FloatVal) le, b.pos + 4 ≤ b.viewLength →
    (b.writeFloat32 v le).2.pos = b.pos + 4) ∧
  (∀ (v : FloatVal) le, b.pos + 8 ≤ b.viewLength →
    (b.writeFloat64 v le).2.pos = b.pos + 8) ∧
  (∀ (v : Int) le, b.pos + 8 ≤ b.viewLength → ((b.writeBigInt64 v le).2.pos = b.pos + 8 ∧
    (b.writeBigUint64 v le).2.pos = b.pos + 8 ∧ (b.writeInt64 v le).2.pos = b.pos + 8 ∧
    (b.writeUint64 v le).2.pos = b.pos + 8)) ∧
  (∀ v m len b2, b.setVarInt b.pos v m = (.ok len, b2) →
    (b.writeVarInt v m).2.pos = b.pos + len) ∧
  (∀ v m len b2, b.setVarUint b.pos v m = (.ok len, b2) →
    (b.writeVarUint v m).2.pos = b.pos + len) ∧
  (∀ v m len b2, b.setVarZint b.pos v m = (.ok len, b2) →
    (b.writeVarZint v m).2.pos = b.pos + len) ∧
  (∀ arr b2, b.setUint8Array b.pos arr = (.ok (), b2) →
    (b.writeUint8Array arr).2.pos = b.pos + arr.length) ∧
  (∀ arr b2, b.setUint16Array b.pos arr = (.ok (), b2) →
    (b.writeUint16Array arr).2.pos = b.pos + 2 * arr.length) ∧
  (∀ s enc w b2, b.setString b.pos s enc = (.ok w, b2) →
    (b.writeString s enc).2.pos = b.pos + w) ∧
  (∀ s w b2, b.setVarString b.pos s = (.ok w, b2) →
    (b.writeVarString s).2.pos = b.pos + w)

/-- Positional setters never move the cursor (the getters are pure in
this model — they do not even return a successor state). -/
def positionalSetsFixed (b : ByteBuf) : Prop :=
  (∀ off (v : Bool), (b.setBool off v).2.pos = b.pos) ∧
  (∀ off (v : Int), (b.setInt8 off v).2.pos = b.pos ∧ (b.setUint8 off v).2.pos = b.pos) ∧
  (∀ off (v : Int) le, (b.setInt16 off v le).2.pos = b.pos ∧
    (b.setUint16 off v le).2.pos = b.pos ∧ (b.setInt32 off v le).2.pos = b.pos ∧
    (b.setUint32 off v le).2.pos = b.pos ∧ (b.setBigInt64 off v le).2.pos = b.pos ∧
    (b.setBigUint64 off v le).2.pos = b.pos ∧ (b.setInt64 off v le).2.pos = b.pos ∧
    (b.setUint64 off v le).2.pos = b.pos) ∧
  (∀ off (v : FloatVal) le, (b.setFloat32 off v le).2.pos = b.pos ∧
    (b.setFloat64 off v le).2.pos = b.pos) ∧
  (∀ off (v : Int) m, (b.setVarInt off v m).2.pos = b.pos ∧
    (b.setVarUint off v m).2.pos = b.pos ∧ (b.setVarZint off v m).2.pos = b.pos) ∧
  (∀ off arr, (b.setUint8Array off arr).2.pos = b.pos ∧
    (b.setUint16Array off arr).2.pos = b.pos) ∧
  (∀ off s enc, (b.setString off s enc).2.pos = b.pos) ∧
  (∀ off s, (b.setVarString off s).2.pos = b.pos)

/-! ### Basic lemmas about the byte-level helpers -/

theorem writeList_length (bs : List Nat) : ∀ (l : List Nat) (i : Nat),
    (writeList l i bs).length = l.length := by
  induction bs with
  | nil => intro l i; rfl
  | cons byte rest ih => intro l i; simp [writeList, ih]

theorem writeList_getElem?_lt (bs : List Nat) : ∀ (l : List Nat) (i j : Nat), j < i →
    (writeList l i bs)[j]? = l[j]? := by
  induction bs with
  | nil => intro l i j _; rfl
  | cons byte rest ih =>
    intro l i j hj
    rw [writeList, ih _ _ _ (by omega), List.getElem?_set_ne (by omega)]

theorem writeList_getElem?_ge (bs : List Nat) : ∀ (l : List Nat) (i j : Nat),
    i + bs.length ≤ j → (writeList l i bs)[j]? = l[j]? := by
  induction bs with
  | nil => intro l i j _; rfl
  | cons byte rest ih =>
    intro l i j hj
    simp only [List.length_cons] at hj
    rw [writeList, ih _ _ _ (by omega), List.getElem?_set_ne (by omega)]

theorem writeList_getElem?_mem (bs : List Nat) : ∀ (l : List Nat) (i j : Nat),
    j < bs.length → i + bs.length ≤ l.length →
    (writeList l i bs)[i + j]? = bs[j]? := by
  induction bs with
  | nil => intro l i j hj _; simp at hj
  | cons byte rest ih =>
    intro l i j hj hle
    simp only [List.length_cons] at hj hle
    match j with
    | 0 =>
      rw [writeList, writeList_getElem?_lt _ _ _ _ (by omega), Nat.add_zero,
        @List.getElem?_set_self _ l i byte (by omega)]
      simp
    | j' + 1 =>
      have h := ih (l.set i byte) (i + 1) j' (by omega) (by rw [List.length_set]; omega)
      rw [writeList, show i + (j' + 1) = (i + 1) + j' by omega, h]
      simp

theorem leBytes_length (w : Nat) : ∀ u, (leBytes w u).length = w := by
  induction w with
  | zero => intro u; rfl
  | succ w ih => intro u; simp [leBytes, ih]

theorem leBytes_lt (w : Nat) : ∀ u, ∀ x ∈ leBytes w u, x < 256 := by
  induction w with
  | zero => intro u x hx; simp [leBytes] at hx
  | succ w ih =>
    intro u x hx
    simp only [leBytes, List.mem_cons] at hx
    rcases hx with h | h
    · omega
    · exact ih _ _ h

theorem leValue_leBytes (w : Nat) : ∀ u, leValue (leBytes w u) = u % 256 ^ w := by
  induction w with
  | zero => intro u; simp [leBytes, leValue]; omega
  | succ w ih =>
    intro u
    rw [leBytes, leValue, ih, show 256 ^ (w + 1) = 256 * 256 ^ w by ring, Nat.mod_mul]

/-! ### 32-bit conversion lemmas -/

theorem toUint32_lt (n : Int) : toUint32 n < 4294967296 := by
  unfold toUint32; omega

theorem toUint32_ofNat {u : Nat} (h : u < 4294967296) : toUint32 (u : Int) = u := by
  unfold toUint32; omega

theorem toInt32_ofNat_small {u : Nat} (h : u < 2147483648) : toInt32 (u : Int) = u := by
  unfold toInt32; omega

theorem toUint32_toInt32 (n : Int) : toUint32 (toInt32 n) = toUint32 n := by
  unfold toUint32 toInt32; split <;> omega

theorem toInt32_eq_toSigned (n : Int) : toInt32 n = toSigned 32 (toUint32 n) := by
  unfold toInt32 toSigned toUint32
  norm_num
  omega

theorem toInt32_toUint32 (n : Int) : toInt32 ((toUint32 n : Nat) : Int) = toInt32 n := by
  unfold toInt32 toUint32; omega

/-! ### Disjoint-bit addition and complement, for the VarInt accumulator -/

theorem lor_mul_two_pow_add {s : Nat} : ∀ (a m : Nat), a < 2 ^ s →
    a ||| m * 2 ^ s = a + m * 2 ^ s := by
  induction s with
  | zero =>
    intro a m ha
    interval_cases a
    simp
  | succ s ih =>
    intro a m ha
    have hdecomp : 2 * (a / 2) + a % 2 = a := by omega
    have hm : m * 2 ^ (s + 1) = 2 * (m * 2 ^ s) := by ring
    have hdiv : (a ||| m * 2 ^ (s + 1)) / 2 = a / 2 + m * 2 ^ s := by
      rw [Nat.or_div_two, hm, Nat.mul_div_cancel_left _ (by omega)]
      exact ih (a / 2) m (by omega)
    have hmod : (a ||| m * 2 ^ (s + 1)) % 2 = a % 2 := by
      rcases Nat.mod_two_eq_zero_or_one (a ||| m * 2 ^ (s + 1)) with h | h <;>
        rcases Nat.mod_two_eq_zero_or_one a with h' | h'
      · omega
      · exfalso
        have : (a ||| m * 2 ^ (s + 1)) % 2 = 1 :=
          Nat.or_mod_two_eq_one.mpr (Or.inl h')
        omega
      · exfalso
        have h2 : m * 2 ^ (s + 1) % 2 = 0 := by
          rw [hm, Nat.mul_mod_right]
        have := Nat.or_mod_two_eq_one.mp h
        rcases this with h3 | h3 <;> omega
      · omega
    have := Nat.div_add_mod (a ||| m * 2 ^ (s + 1)) 2
    omega

theorem xor_two_pow_sub_one {k : Nat} : ∀ (m : Nat), m < 2 ^ k →
    (2 ^ k - 1) ^^^ m = 2 ^ k - 1 - m := by
  induction k with
  | zero =>
    intro m hm
    interval_cases m
    rfl
  | succ k ih =>
    intro m hm
    have h2k : 2 ^ (k + 1) = 2 * 2 ^ k := by ring
    have hones : (2 ^ (k + 1) - 1) / 2 = 2 ^ k - 1 := by omega
    have honesmod : (2 ^ (k + 1) - 1) % 2 = 1 := by
      have : 0 < 2 ^ k := Nat.pos_pow_of_pos k (by omega)
      omega
    have hdiv : ((2 ^ (k + 1) - 1) ^^^ m) / 2 = 2 ^ k - 1 - m / 2 := by
      rw [Nat.xor_div_two, hones]
      exact ih (m / 2) (by omega)
    have hmod : ((2 ^ (k + 1) - 1) ^^^ m) % 2 = 1 - m % 2 := by
      rcases Nat.mod_two_eq_zero_or_one ((2 ^ (k + 1) - 1) ^^^ m) with h | h <;>
        rcases Nat.mod_two_eq_zero_or_one m with h' | h'
      · exfalso
        have : ((2 ^ (k + 1) - 1) ^^^ m) % 2 = 1 :=
          Nat.xor_mod_two_eq_one.mpr (by omega)
        omega
      · omega
      · omega
      · exfalso
        have := Nat.xor_mod_two_eq_one.mp h
        omega
    have := Nat.div_add_mod ((2 ^ (k + 1) - 1) ^^^ m) 2
    have hpos : 0 < 2 ^ k := Nat.pos_pow_of_pos k (by omega)
    omega

/-! ### The base-128 byte decomposition driving the VarInt codec -/


theorem varIntBytes_length_pos (u : Nat) : 0 < (varIntBytes u).length := by
  rw [varIntBytes]
  split <;> simp

theorem varIntBytes_lt_256 (u : Nat) : ∀ x ∈ varIntBytes u, x < 256 := by
  induction u using Nat.strong_induction_on with
  | _ u ih =>
    rw [varIntBytes]
    split
    · intro x hx
      simp only [List.mem_singleton] at hx
      omega
    · intro x hx
      simp only [List.mem_cons] at hx
      rcases hx with h | h
      · omega
      · exact ih (u / 128) (Nat.div_lt_self (by omega) (by omega)) x h

theorem varIntBytes_length_le : ∀ (k u : Nat), 0 < k → u < 128 ^ k →
    (varIntBytes u).length ≤ k := by
  intro k
  induction k with
  | zero => intro u h; omega
  | succ k ih =>
    intro u _ hu
    rw [varIntBytes]
    split
    · simp
    · simp only [List.length_cons]
      have hk : 0 < k := by
        rcases Nat.eq_zero_or_pos k with h | h
        · subst h; simp at hu; omega
        · exact h
      have : u / 128 < 128 ^ k := by
        rw [Nat.div_lt_iff_lt_mul (by omega)]
        calc u < 128 ^ (k + 1) := hu
        _ = 128 ^ k * 128 := by ring
      have := ih (u / 128) hk this
      omega

/-! ### Bridge lemmas between the JS operators and byte arithmetic -/

theorem jsAnd_byte_127 {byte : Nat} (h : byte < 256) :
    jsAnd (byte : Int) 127 = ((byte % 128 : Nat) : Int) := by
  unfold jsAnd
  rw [toUint32_ofNat (by omega), show toUint32 127 = 2 ^ 7 - 1 from rfl,
    Nat.and_pow_two_sub_one_eq_mod, toInt32_ofNat_small (by omega)]

theorem jsAnd_byte_128_lt {byte : Nat} (h : byte < 128) :
    jsAnd (byte : Int) 128 = 0 := by
  unfold jsAnd
  rw [toUint32_ofNat (by omega), show toUint32 128 = 128 from rfl]
  have hand : byte &&& 128 = 0 := by
    apply Nat.eq_of_testBit_eq
    intro i
    rw [Nat.testBit_and, show (128 : Nat) = 2 ^ 7 by norm_num, Nat.testBit_two_pow]
    rcases eq_or_ne 7 i with rfl | hne
    · rw [Nat.testBit_lt_two_pow (by omega)]
      simp
    · simp [hne]
  rw [hand]
  rfl

theorem jsAnd_byte_128_ge {byte : Nat} (h1 : 128 ≤ byte) (h2 : byte < 256) :
    jsAnd (byte : Int) 128 = 128 := by
  unfold jsAnd
  rw [toUint32_ofNat (by omega), show toUint32 128 = 128 from rfl]
  have hand : byte &&& 128 = 128 := by
    apply Nat.eq_of_testBit_eq
    intro i
    rw [Nat.testBit_and, show (128 : Nat) = 2 ^ 7 by norm_num, Nat.testBit_two_pow]
    rcases eq_or_ne 7 i with rfl | hne
    · have : byte = 2 ^ 7 + (byte - 128) := by omega
      rw [this, Nat.testBit_two_pow_add_eq, Nat.testBit_lt_two_pow (by omega)]
      simp
    · simp [hne]
  rw [hand, toInt32_ofNat_small (by omega)]
  norm_num

/-! ### VarInt encoder correctness -/

theorem toUnsigned8_natCast {u : Nat} (h : u < 256) : toUnsigned 8 (u : Int) = u := by
  unfold toUnsigned
  norm_num
  omega

theorem setVarIntAux_spec : ∀ (fuel : Nat) (b : ByteBuf) (off u k : Nat),
    (varIntBytes u).length ≤ fuel →
    off + (varIntBytes u).length ≤ b.viewLength →
    ByteBuf.setVarIntAux b off u fuel k =
      (.ok (k + ((varIntBytes u).length - 1)),
       { b with buffer := writeList b.buffer (b.viewOffset + off) (varIntBytes u) }) := by
  intro fuel
  induction fuel with
  | zero =>
    intro b off u k hfuel _
    have := varIntBytes_length_pos u
    omega
  | succ fuel ih =>
    intro b off u k hfuel hoff
    by_cases hu : u < 128
    · have hbytes : varIntBytes u = [u] := by rw [varIntBytes]; simp [hu]
      rw [hbytes] at hoff ⊢
      simp only [List.length_singleton] at hoff
      have hdiv : u / 128 = 0 := Nat.div_eq_of_lt hu
      have hmod : u % 128 = u := Nat.mod_eq_of_lt hu
      have h256 : toUnsigned 8 (u : Int) = u := toUnsigned8_natCast (by omega)
      have hb : off + 1 ≤ b.viewLength := by omega
      unfold ByteBuf.setVarIntAux ByteBuf.setUint8
      simp [hdiv, hmod, h256, hb, writeList]
    · have hbytes : varIntBytes u = (u % 128 + 128) :: varIntBytes (u / 128) := by
        rw [varIntBytes]; simp [hu]
      rw [hbytes] at hfuel hoff ⊢
      simp only [List.length_cons] at hfuel hoff
      have hdiv : u / 128 ≠ 0 := by
        have : 1 ≤ u / 128 := Nat.one_le_div_iff (by omega) |>.mpr (by omega)
        omega
      have h256 : toUnsigned 8 ((u % 128 + 128 : Nat) : Int) = u % 128 + 128 :=
        toUnsigned8_natCast (by omega)
      have hb : off + 1 ≤ b.viewLength := by
        have := varIntBytes_length_pos (u / 128)
        omega
      unfold ByteBuf.setVarIntAux ByteBuf.setUint8
      simp only [hdiv, ne_eq, not_false_eq_true, if_true, ite_true, hb, if_pos, h256]
      have hstep := ih { b with buffer := b.buffer.set (b.viewOffset + off) (u % 128 + 128) }
        (off + 1) (u / 128) (k + 1) (by omega)
        (show off + 1 + (varIntBytes (u / 128)).length ≤ b.viewLength by omega)
      simp only at hstep
      rw [hstep]
      have hlen := varIntBytes_length_pos (u / 128)
      have harith : k + 1 + ((varIntBytes (u / 128)).length - 1) =
          k + ((varIntBytes (u / 128)).length + 1 - 1) := by omega
      rw [harith]
      have hw : writeList (b.buffer.set (b.viewOffset + off) (u % 128 + 128))
          (b.viewOffset + (off + 1)) (varIntBytes (u / 128)) =
          writeList b.buffer (b.viewOffset + off) ((u % 128 + 128) :: varIntBytes (u / 128)) := by
        rw [writeList, show b.viewOffset + (off + 1) = b.viewOffset + off + 1 by omega]
      rw [hw]
      simp

/-! ### VarInt decoder correctness -/

theorem shift_lt_32_of_mul {u shift : Nat} (hu : 0 < u) (h : u * 2 ^ shift < 4294967296) :
    shift < 32 := by
  have h1 : 2 ^ shift ≤ u * 2 ^ shift := Nat.le_mul_of_pos_left _ hu
  have h2 : 2 ^ shift < 2 ^ 32 := by
    calc 2 ^ shift ≤ u * 2 ^ shift := h1
    _ < 4294967296 := h
  exact (Nat.pow_lt_pow_iff_right (by omega)).mp h2

theorem getVarIntAux_spec : ∀ (fuel : Nat) (b : ByteBuf) (off u : Nat) (acc : Int)
    (k shift : Nat),
    (varIntBytes u).length ≤ fuel →
    off + k + (varIntBytes u).length ≤ b.viewLength →
    (∀ j, j < (varIntBytes u).length →
      b.buffer.getD (b.viewOffset + off + k + j) 0 = (varIntBytes u).getD j 0) →
    toUint32 acc < 2 ^ shift →
    u * 2 ^ shift < 4294967296 →
    ByteBuf.getVarIntAux b off fuel acc k shift =
      .ok ⟨toInt32 ((toUint32 acc : Int) + (u : Int) * 2 ^ shift),
        k + (varIntBytes u).length⟩ := by
  intro fuel
  induction fuel with
  | zero =>
    intro b off u acc k shift hfuel _ _ _ _
    have := varIntBytes_length_pos u
    omega
  | succ fuel ih =>
    intro b off u acc k shift hfuel hoff hbytes hacc hu32
    by_cases hu : u < 128
    · -- final group: the stored byte is `u` itself, continuation bit clear
      have hb : varIntBytes u = [u] := by rw [varIntBytes]; simp [hu]
      rw [hb] at hfuel hoff hbytes ⊢
      simp only [List.length_singleton] at hfuel hoff hbytes ⊢
      have hbyte := hbytes 0 (by omega)
      have hget : b.getUint8 (off + k) = .ok u := by
        unfold ByteBuf.getUint8
        rw [if_pos (by omega), show b.viewOffset + (off + k) = b.viewOffset + off + k + 0 by omega,
          hbyte]
        rfl
      unfold ByteBuf.getVarIntAux
      rw [hget]
      simp only
      rw [jsAnd_byte_127 (by omega), jsAnd_byte_128_lt hu, if_pos rfl,
        Nat.mod_eq_of_lt hu]
      rcases Nat.eq_zero_or_pos u with rfl | hupos
      · -- u = 0: the shifted contribution is zero whatever the shift is
        have hshl : jsShl ((0 : Nat) : Int) shift = 0 := by
          unfold jsShl
          rw [toUint32_ofNat (by omega)]
          simp [toInt32]
        rw [hshl]
        unfold jsOr
        rw [show toUint32 0 = 0 from rfl]
        have : toUint32 acc ||| 0 = toUint32 acc := by simp
        rw [this]
        simp [toInt32_toUint32]
      · have hshift : shift < 32 := shift_lt_32_of_mul hupos hu32
        have hshl : jsShl ((u : Nat) : Int) shift = toInt32 ((u * 2 ^ shift : Nat) : Int) := by
          unfold jsShl
          rw [toUint32_ofNat (by omega), Nat.mod_eq_of_lt hshift]
        rw [hshl]
        unfold jsOr
        rw [toUint32_toInt32, toUint32_ofNat hu32,
          lor_mul_two_pow_add (toUint32 acc) u hacc]
        have hcast : ((toUint32 acc + u * 2 ^ shift : Nat) : Int) =
            ((toUint32 acc : Nat) : Int) + (u : Int) * 2 ^ shift := by
          push_cast
          ring
        rw [hcast]
    · -- continuation group: stored byte is `u % 128 + 128`, recurse on `u / 128`
      have hb : varIntBytes u = (u % 128 + 128) :: varIntBytes (u / 128) := by
        rw [varIntBytes]; simp [hu]
      rw [hb] at hfuel hoff hbytes ⊢
      simp only [List.length_cons] at hfuel hoff ⊢
      have hbyte := hbytes 0 (by simp)
      have hget : b.getUint8 (off + k) = .ok (u % 128 + 128) := by
        unfold ByteBuf.getUint8
        rw [if_pos (by omega), show b.viewOffset + (off + k) = b.viewOffset + off + k + 0 by omega,
          hbyte]
        rfl
      unfold ByteBuf.getVarIntAux
      rw [hget]
      simp only
      have hshift7 : shift + 7 < 32 := by
        have h1 : 2 ^ (shift + 7) ≤ u * 2 ^ shift := by
          rw [pow_add]
          calc 2 ^ shift * 2 ^ 7 = 2 ^ 7 * 2 ^ shift := by ring
          _ ≤ u * 2 ^ shift := Nat.mul_le_mul_right _ (by omega)
        have h2 : 2 ^ (shift + 7) < 2 ^ 32 := by
          calc 2 ^ (shift + 7) ≤ u * 2 ^ shift := h1
          _ < 4294967296 := hu32
        exact (Nat.pow_lt_pow_iff_right (by omega)).mp h2
      have hmlt : (u % 128) * 2 ^ shift < 4294967296 := by
        calc (u % 128) * 2 ^ shift ≤ u * 2 ^ shift :=
          Nat.mul_le_mul_right _ (Nat.mod_le u 128)
        _ < 4294967296 := hu32
      rw [jsAnd_byte_127 (by omega), jsAnd_byte_128_ge (by omega) (by omega)]
      rw [if_neg (by norm_num)]
      have hmod : (u % 128 + 128) % 128 = u % 128 := by omega
      rw [hmod]
      have hshl : jsShl ((u % 128 : Nat) : Int) shift =
          toInt32 (((u % 128) * 2 ^ shift : Nat) : Int) := by
        unfold jsShl
        rw [toUint32_ofNat (by omega), Nat.mod_eq_of_lt (show shift < 32 by omega)]
      rw [hshl]
      have hval : jsOr acc (toInt32 (((u % 128) * 2 ^ shift : Nat) : Int)) =
          toInt32 (((toUint32 acc + (u % 128) * 2 ^ shift : Nat) : Nat) : Int) := by
        unfold jsOr
        rw [toUint32_toInt32, toUint32_ofNat hmlt,
          lor_mul_two_pow_add (toUint32 acc) (u % 128) hacc]
      rw [hval]
      have hsum : toUint32 acc + (u % 128) * 2 ^ shift < 2 ^ (shift + 7) := by
        have : (u % 128) * 2 ^ shift ≤ 127 * 2 ^ shift :=
          Nat.mul_le_mul_right _ (by omega)
        have hpow : 2 ^ (shift + 7) = 128 * 2 ^ shift := by rw [pow_add]; ring
        omega
      have hacc' : toUint32 (toInt32 (((toUint32 acc + (u % 128) * 2 ^ shift : Nat) : Nat) : Int))
          < 2 ^ (shift + 7) := by
        rw [toUint32_toInt32, toUint32_ofNat]
        · exact hsum
        · calc toUint32 acc + (u % 128) * 2 ^ shift < 2 ^ (shift + 7) := hsum
          _ < 2 ^ 32 := (Nat.pow_lt_pow_iff_right (by omega)).mpr hshift7
      have hu32' : (u / 128) * 2 ^ (shift + 7) < 4294967296 := by
        have : (u / 128) * 2 ^ (shift + 7) = (u / 128) * 128 * 2 ^ shift := by
          rw [pow_add]; ring
        rw [this]
        calc (u / 128) * 128 * 2 ^ shift ≤ u * 2 ^ shift :=
          Nat.mul_le_mul_right _ (Nat.div_mul_le_self u 128)
        _ < 4294967296 := hu32
      have hbytes' : ∀ j, j < (varIntBytes (u / 128)).length →
          b.buffer.getD (b.viewOffset + off + (k + 1) + j) 0 =
            (varIntBytes (u / 128)).getD j 0 := by
        intro j hj
        have := hbytes (j + 1) (by simp; omega)
        rw [show b.viewOffset + off + k + (j + 1) = b.viewOffset + off + (k + 1) + j by omega]
          at this
        simpa using this
      have hstep := ih b off (u / 128)
        (toInt32 (((toUint32 acc + (u % 128) * 2 ^ shift : Nat) : Nat) : Int))
        (k + 1) (shift + 7) (by omega) (by omega) hbytes' hacc' hu32'
      rw [hstep]
      have hlt32 : toUint32 acc + (u % 128) * 2 ^ shift < 4294967296 := by
        have h1 : 2 ^ (shift + 7) < 2 ^ 32 := (Nat.pow_lt_pow_iff_right (by omega)).mpr hshift7
        have h2 : (2 : Nat) ^ 32 = 4294967296 := by norm_num
        omega
      have hargs :
          ((toUint32 (toInt32 (((toUint32 acc + (u % 128) * 2 ^ shift : Nat) : Nat) : Int)) :
              Nat) : Int) + ((u / 128 : Nat) : Int) * 2 ^ (shift + 7) =
            ((toUint32 acc : Nat) : Int) + (u : Int) * 2 ^ shift := by
        rw [toUint32_toInt32, toUint32_ofNat hlt32]
        have hsplit : ((u : Int) % 128) + 128 * ((u : Int) / 128) = (u : Int) := by omega
        have hpow : ((2 : Int)) ^ (shift + 7) = 2 ^ shift * 128 := by
          rw [pow_add]; norm_num
        push_cast
        rw [hpow]
        linear_combination (2 : Int) ^ shift * hsplit
      rw [hargs,
        show k + 1 + (varIntBytes (u / 128)).length =
          k + ((varIntBytes (u / 128)).length + 1) by omega]

/-! ### Top-level VarInt correctness -/

theorem varIntBytes_length_le_five {u : Nat} (h : u < 4294967296) :
    (varIntBytes u).length ≤ 5 := by
  apply varIntBytes_length_le 5 u (by omega)
  norm_num
  omega

/-- `setVarInt` succeeds whenever the encoding fits in the view, returns
the byte count and stores exactly `varIntBytes (toUint32 value)`. -/
theorem setVarInt_spec (b : ByteBuf) (off : Nat) (value : Int)
    (hlen : off + (varIntBytes (toUint32 value)).length ≤ b.viewLength) :
    b.setVarInt off value none =
      (.ok (varIntBytes (toUint32 value)).length,
       { b with buffer :=
          writeList b.buffer (b.viewOffset + off) (varIntBytes (toUint32 value)) }) := by
  unfold ByteBuf.setVarInt
  have h5 := varIntBytes_length_le_five (toUint32_lt value)
  simp only [Option.getD_none]
  rw [setVarIntAux_spec 10 b off (toUint32 value) 1 (by omega) hlen]
  have hpos := varIntBytes_length_pos (toUint32 value)
  have h1 : 1 + ((varIntBytes (toUint32 value)).length - 1) =
      (varIntBytes (toUint32 value)).length := by omega
  rw [h1]

/-- `getVarInt` over a stored encoding of `u < 2^32` returns the int32
reading of `u` together with the group count. -/
theorem getVarInt_spec (b : ByteBuf) (off : Nat) (u : Nat)
    (hu : u < 4294967296)
    (hlen : off + (varIntBytes u).length ≤ b.viewLength)
    (hbytes : ∀ j, j < (varIntBytes u).length →
      b.buffer.getD (b.viewOffset + off + j) 0 = (varIntBytes u).getD j 0) :
    b.getVarInt off none = .ok ⟨toInt32 (u : Int), (varIntBytes u).length⟩ := by
  unfold ByteBuf.getVarInt
  have h5 := varIntBytes_length_le_five hu
  simp only [Option.getD_none]
  have hspec := getVarIntAux_spec 10 b off u 0 0 0 (by omega) (by omega)
    (by intro j hj; rw [show b.viewOffset + off + 0 + j = b.viewOffset + off + j by omega]
        exact hbytes j hj)
    (by rw [show toUint32 0 = 0 from rfl]; norm_num)
    (by omega)
  rw [hspec]
  have h0 : ((toUint32 0 : Nat) : Int) + (u : Int) * 2 ^ 0 = (u : Int) := by
    rw [show toUint32 0 = 0 from rfl]
    push_cast
    ring
  rw [h0, Nat.zero_add]

/-- Writing a VarInt then reading it back at the same offset: the read
returns `toInt32` of the unsigned-32-bit image of the written value, with
the same byte count, and only the encoded byte range of the buffer is
touched. -/
theorem varint_roundtrip (b : ByteBuf) (off : Nat) (value : Int)
    (hwf : b.wf)
    (hlen : off + (varIntBytes (toUint32 value)).length ≤ b.viewLength) :
    (b.setVarInt off value none).1 = .ok (varIntBytes (toUint32 value)).length ∧
    ((b.setVarInt off value none).2.getVarInt off none =
      .ok ⟨toInt32 value, (varIntBytes (toUint32 value)).length⟩) := by
  rw [setVarInt_spec b off value hlen]
  refine ⟨rfl, ?_⟩
  have hwf' : ByteBuf.wf
      ⟨writeList b.buffer (b.viewOffset + off) (varIntBytes (toUint32 value)),
        b.viewOffset, b.viewLength, b.pos⟩ := by
    unfold ByteBuf.wf at hwf ⊢
    rw [writeList_length]
    exact hwf
  have hres := getVarInt_spec
    ⟨writeList b.buffer (b.viewOffset + off) (varIntBytes (toUint32 value)),
      b.viewOffset, b.viewLength, b.pos⟩
    off (toUint32 value) (toUint32_lt value) hlen ?_
  · show ByteBuf.getVarInt
      ⟨writeList b.buffer (b.viewOffset + off) (varIntBytes (toUint32 value)),
        b.viewOffset, b.viewLength, b.pos⟩ off none =
      .ok ⟨toInt32 value, (varIntBytes (toUint32 value)).length⟩
    rw [hres, toInt32_toUint32]
  · intro j hj
    have hmem := writeList_getElem?_mem (varIntBytes (toUint32 value)) b.buffer
      (b.viewOffset + off) j hj (by unfold ByteBuf.wf at hwf; omega)
    show (writeList b.buffer (b.viewOffset + off) (varIntBytes (toUint32 value))).getD
        (b.viewOffset + off + j) 0 = (varIntBytes (toUint32 value)).getD j 0
    rw [List.getD_eq_getElem?_getD, List.getD_eq_getElem?_getD, hmem]

/-! ### Claim theorems -/


theorem varIntCase_intro (b : ByteBuf) (off : Nat) (v : Int) (bytes : List Nat)
    (hwf : b.wf)
    (hbytes : varIntBytes (toUint32 v) = bytes)
    (hsp : off + bytes.length ≤ b.viewLength)
    (hv : toInt32 v = v) :
    varIntCase b off v bytes := by
  have hrt := varint_roundtrip b off v hwf (by rw [hbytes]; exact hsp)
  have hset := setVarInt_spec b off v (by rw [hbytes]; exact hsp)
  unfold varIntCase
  rw [hbytes] at hrt
  rw [hv] at hrt
  refine ⟨hrt.1, ?_, ?_, ?_, ?_, ?_, hrt.2⟩
  · rw [hset]
  · rw [hset]
  · rw [hset]
  · intro j hj
    rw [hset]
    show (writeList b.buffer (b.viewOffset + off) (varIntBytes (toUint32 v))).getD
      (b.viewOffset + off + j) 0 = bytes.getD j 0
    rw [List.getD_eq_getElem?_getD, List.getD_eq_getElem?_getD,
      writeList_getElem?_mem _ _ _ _ (by rw [hbytes]; exact hj)
        (by unfold ByteBuf.wf at hwf; rw [hbytes]; omega), hbytes]
  · intro i hi
    rw [hset]
    show (writeList b.buffer (b.viewOffset + off) (varIntBytes (toUint32 v)))[i]? = b.buffer[i]?
    rcases hi with h | h
    · exact writeList_getElem?_lt _ _ _ _ h
    · exact writeList_getElem?_ge _ _ _ _ (by rw [hbytes]; omega)

theorem varIntBytes_255 : varIntBytes 255 = [255, 1] := by
  rw [varIntBytes]
  norm_num
  rw [varIntBytes]
  norm_num

theorem varIntBytes_0 : varIntBytes 0 = [0] := by
  rw [varIntBytes]
  norm_num

theorem varIntBytes_127 : varIntBytes 127 = [127] := by
  rw [varIntBytes]
  norm_num

theorem varIntBytes_intmax : varIntBytes 2147483647 = [255, 255, 255, 255, 7] := by
  rw [varIntBytes]
  norm_num
  rw [varIntBytes]
  norm_num
  rw [varIntBytes]
  norm_num
  rw [varIntBytes]
  norm_num
  rw [varIntBytes]
  norm_num

/-- Claim C1: for each documented value, `setVarInt` writes exactly the
documented little-endian base-128 bytes (7 value bits per byte, high bit
as continuation flag), returns that byte length, and `getVarInt` at the
same offset returns the pair of the value and that byte length:
value 0 ↦ `[0x00]`, 127 ↦ `[0x7f]`, 255 ↦ `[0xff, 0x01]`,
2147483647 ↦ `[0xff, 0xff, 0xff, 0xff, 0x07]`. -/
theorem c1_varint_documented_values (b : ByteBuf) (off : Nat)
    (hwf : b.wf) (hsp : off + 5 ≤ b.viewLength) :
    varIntCase b off 0 [0x00] ∧
    varIntCase b off 127 [0x7f] ∧
    varIntCase b off 255 [0xff, 0x01] ∧
    varIntCase b off 2147483647 [0xff, 0xff, 0xff, 0xff, 0x07] := by
  refine ⟨?_, ?_, ?_, ?_⟩
  · exact varIntCase_intro b off 0 [0x00] hwf (by rw [show toUint32 0 = 0 from rfl,
      varIntBytes_0]) (by simpa using by omega) (by decide)
  · exact varIntCase_intro b off 127 [0x7f] hwf (by rw [show toUint32 127 = 127 from rfl,
      varIntBytes_127]) (by simpa using by omega) (by decide)
  · exact varIntCase_intro b off 255 [0xff, 0x01] hwf (by rw [show toUint32 255 = 255 from rfl,
      varIntBytes_255]) (by simpa using by omega) (by decide)
  · exact varIntCase_intro b off 2147483647 [0xff, 0xff, 0xff, 0xff, 0x07] hwf
      (by rw [show toUint32 2147483647 = 2147483647 from rfl, varIntBytes_intmax])
      (by simpa using by omega) (by decide)

/-- Witness for C1 at a concrete five-byte buffer. -/
theorem c1_varint_documented_values_witness :
    (ByteBuf.wf ⟨[0, 0, 0, 0, 0], 0, 5, 0⟩) ∧ 0 + 5 ≤ (5 : Nat) ∧
    (varIntCase ⟨[0, 0, 0, 0, 0], 0, 5, 0⟩ 0 0 [0x00] ∧
     varIntCase ⟨[0, 0, 0, 0, 0], 0, 5, 0⟩ 0 127 [0x7f] ∧
     varIntCase ⟨[0, 0, 0, 0, 0], 0, 5, 0⟩ 0 255 [0xff, 0x01] ∧
     varIntCase ⟨[0, 0, 0, 0, 0], 0, 5, 0⟩ 0 2147483647 [0xff, 0xff, 0xff, 0xff, 0x07]) :=
  ⟨by norm_num [ByteBuf.wf], by decide,
    c1_varint_documented_values ⟨[0, 0, 0, 0, 0], 0, 5, 0⟩ 0 (by norm_num [ByteBuf.wf])
      (by decide)⟩

/-! ### Zigzag arithmetic -/

theorem toUint32_int_eq (x : Int) : (toUint32 x : Int) = x % 4294967296 := by
  unfold toUint32; omega

theorem toInt32_of_range {x : Int} (h1 : -2147483648 ≤ x) (h2 : x < 2147483648) :
    toInt32 x = x := by
  unfold toInt32; split <;> omega

/-- The zigzag image `(n >> 31) ^ (n << 1)` for small nonnegative `n`. -/
theorem zigzag_enc_nonneg {n : Int} (h0 : 0 ≤ n) (h1 : n < 1073741824) :
    jsXor (jsSar n 31) (jsShl n 1) = 2 * n := by
  have hsar : jsSar n 31 = 0 := by
    unfold jsSar
    rw [toInt32_of_range (by omega) (by omega)]
    norm_num
    omega
  have hshl : jsShl n 1 = 2 * n := by
    unfold jsShl
    have : (toUint32 n : Int) = n := by rw [toUint32_int_eq]; omega
    rw [show (1 % 32 : Nat) = 1 by norm_num]
    rw [toInt32_of_range] <;> push_cast <;> omega
  rw [hsar, hshl]
  unfold jsXor
  have h2 : toUint32 0 = 0 := rfl
  rw [h2, Nat.zero_xor]
  have : (toUint32 (2 * n) : Int) = 2 * n := by rw [toUint32_int_eq]; omega
  rw [toInt32_of_range (by omega) (by omega)]
  omega

/-- The zigzag image for small negative `n`. -/
theorem zigzag_enc_neg {n : Int} (h0 : -1073741824 ≤ n) (h1 : n < 0) :
    jsXor (jsSar n 31) (jsShl n 1) = -2 * n - 1 := by
  have hsar : jsSar n 31 = -1 := by
    unfold jsSar
    rw [toInt32_of_range (by omega) (by omega)]
    norm_num
    omega
  have hshlU : (toUint32 (jsShl n 1) : Int) = 2 * n + 4294967296 := by
    unfold jsShl
    rw [toUint32_toInt32, toUint32_int_eq]
    have : (toUint32 n : Int) = n + 4294967296 := by rw [toUint32_int_eq]; omega
    rw [show (1 % 32 : Nat) = 1 by norm_num]
    push_cast
    omega
  rw [hsar]
  unfold jsXor
  have hneg1 : toUint32 (-1) = 4294967295 := by
    have := toUint32_int_eq (-1)
    omega
  rw [hneg1]
  have hlt : toUint32 (jsShl n 1) < 4294967296 := toUint32_lt _
  have hxor : (4294967295 : Nat) ^^^ toUint32 (jsShl n 1) =
      4294967295 - toUint32 (jsShl n 1) := by
    have := xor_two_pow_sub_one (k := 32) (toUint32 (jsShl n 1)) (by norm_num; omega)
    norm_num at this ⊢
    exact this
  rw [hxor]
  have hsub : ((4294967295 - toUint32 (jsShl n 1) : Nat) : Int) = -2 * n - 1 := by
    push_cast [Nat.cast_sub (by omega : toUint32 (jsShl n 1) ≤ 4294967295)]
    omega
  rw [toInt32_of_range (by omega) (by omega)]
  omega

/-- The decode map `(v >> 1) ^ -(v & 1)` on an even small input. -/
theorem zigzag_dec_nonneg {n : Int} (h0 : 0 ≤ n) (h1 : n < 1073741824) :
    jsXor (jsSar (2 * n) 1) (-(jsAnd (2 * n) 1)) = n := by
  have hU : (toUint32 (2 * n) : Int) = 2 * n := by rw [toUint32_int_eq]; omega
  have hand : jsAnd (2 * n) 1 = 0 := by
    unfold jsAnd
    have h1' : toUint32 (2 * n) &&& toUint32 1 = toUint32 (2 * n) % 2 := by
      rw [show toUint32 1 = 1 from rfl, Nat.and_one_is_mod]
    rw [h1']
    have : toUint32 (2 * n) % 2 = 0 := by omega
    rw [this]
    rfl
  have hsar : jsSar (2 * n) 1 = n := by
    unfold jsSar
    rw [toInt32_of_range (by omega) (by omega)]
    norm_num
  rw [hand, hsar]
  unfold jsXor
  rw [neg_zero, show toUint32 0 = 0 from rfl, Nat.xor_zero]
  have : (toUint32 n : Int) = n := by rw [toUint32_int_eq]; omega
  rw [toInt32_of_range (by omega) (by omega)]
  omega

/-- The decode map on an odd small input recovers the negative value. -/
theorem zigzag_dec_neg {n : Int} (h0 : -1073741824 ≤ n) (h1 : n < 0) :
    jsXor (jsSar (-2 * n - 1) 1) (-(jsAnd (-2 * n - 1) 1)) = n := by
  have hU : (toUint32 (-2 * n - 1) : Int) = -2 * n - 1 := by rw [toUint32_int_eq]; omega
  have hand : jsAnd (-2 * n - 1) 1 = 1 := by
    unfold jsAnd
    have h1' : toUint32 (-2 * n - 1) &&& toUint32 1 = toUint32 (-2 * n - 1) % 2 := by
      rw [show toUint32 1 = 1 from rfl, Nat.and_one_is_mod]
    rw [h1']
    have : toUint32 (-2 * n - 1) % 2 = 1 := by omega
    rw [this]
    rfl
  have hsar : jsSar (-2 * n - 1) 1 = -n - 1 := by
    unfold jsSar
    rw [toInt32_of_range (by omega) (by omega)]
    norm_num
    omega
  rw [hand, hsar]
  unfold jsXor
  have hm : (toUint32 (-n - 1) : Int) = -n - 1 := by rw [toUint32_int_eq]; omega
  have hneg1 : toUint32 (-1) = 4294967295 := by
    have := toUint32_int_eq (-1)
    omega
  rw [hneg1]
  have hxor : toUint32 (-n - 1) ^^^ (4294967295 : Nat) =
      4294967295 - toUint32 (-n - 1) := by
    rw [Nat.xor_comm]
    have := xor_two_pow_sub_one (k := 32) (toUint32 (-n - 1)) (by norm_num; omega)
    norm_num at this ⊢
    exact this
  rw [hxor]
  have hle : toUint32 (-n - 1) ≤ 4294967295 := by omega
  have hsub : ((4294967295 - toUint32 (-n - 1) : Nat) : Int) = 4294967295 - (-n - 1) := by
    push_cast [Nat.cast_sub hle]
    omega
  unfold toInt32
  omega

theorem varIntBytes_510 : varIntBytes 510 = [254, 3] := by
  rw [varIntBytes]
  norm_num
  rw [varIntBytes]
  norm_num

theorem varIntBytes_1 : varIntBytes 1 = [1] := by
  rw [varIntBytes]
  norm_num

/-- Claim C2 counterexample: at `n = 2^30 = 1073741824` (a signed 32-bit
integer), the zigzag round-trip fails: `setVarZint` stores
`[0x80, 0x80, 0x80, 0x80, 0x08]` and `getVarZint` returns `-1073741824`,
not `n`, because the decoder uses the sign-propagating `>>` on the zigzag
image. -/
theorem c2_zigzag_roundtrip_counterexample :
    ((⟨[0, 0, 0, 0, 0], 0, 5, 0⟩ : ByteBuf).setVarZint 0 1073741824 none) =
      (.ok 5, ⟨[128, 128, 128, 128, 8], 0, 5, 0⟩) ∧
    (⟨[128, 128, 128, 128, 8], 0, 5, 0⟩ : ByteBuf).getVarZint 0 none =
      .ok ⟨-1073741824, 5⟩ ∧
    (-1073741824 : Int) ≠ 1073741824 :=
  ⟨by decide, by decide, by decide⟩

/-- Claim C2 (amended): the zigzag codec `setVarZint`/`getVarZint`
round-trips every signed integer `n` with `-2^30 ≤ n < 2^30` (the values
whose zigzag image fits in 31 bits; `2^30` and `-2^30 - 1` already fail,
see the counterexample), the encoding applies `(n << 1) ^ (n >> 31)`
before the group encoder and the decoder applies `(zz >> 1) ^ -(zz & 1)`
after it, and in particular `n = 255` encodes as `[0xfe, 0x03]` and
`n = -1` as `[0x01]`. -/
theorem c2_zigzag_roundtrip_amended (b : ByteBuf) (off : Nat) (n : Int)
    (hwf : b.wf) (hsp : off + 5 ≤ b.viewLength)
    (hlo : -1073741824 ≤ n) (hhi : n < 1073741824) :
    (∃ len, 1 ≤ len ∧ len ≤ 5 ∧
      (b.setVarZint off n none).1 = .ok len ∧
      (b.setVarZint off n none).2.getVarZint off none = .ok ⟨n, len⟩) ∧
    ((b.setVarZint off 255 none).1 = .ok 2 ∧
     ∀ j, j < 2 → (b.setVarZint off 255 none).2.buffer.getD (b.viewOffset + off + j) 0 =
       [0xfe, 0x03].getD j 0) ∧
    ((b.setVarZint off (-1) none).1 = .ok 1 ∧
     ∀ j, j < 1 → (b.setVarZint off (-1) none).2.buffer.getD (b.viewOffset + off + j) 0 =
       [0x01].getD j 0) := by
  refine ⟨?_, ?_, ?_⟩
  · -- the round-trip on the restricted domain
    unfold ByteBuf.setVarZint
    rcases le_or_lt 0 n with hn | hn
    · rw [zigzag_enc_nonneg hn hhi]
      have hU : (toUint32 (2 * n) : Int) = 2 * n := by rw [toUint32_int_eq]; omega
      have h5 := varIntBytes_length_le_five (toUint32_lt (2 * n))
      have hrt := varint_roundtrip b off (2 * n) hwf (by omega)
      refine ⟨(varIntBytes (toUint32 (2 * n))).length,
        varIntBytes_length_pos _, h5, hrt.1, ?_⟩
      unfold ByteBuf.getVarZint
      rw [hrt.2, toInt32_of_range (by omega) (by omega)]
      show Except.ok (⟨jsXor (jsSar (2 * n) 1) (-(jsAnd (2 * n) 1)),
        (varIntBytes (toUint32 (2 * n))).length⟩ : IntResult) =
        Except.ok ⟨n, (varIntBytes (toUint32 (2 * n))).length⟩
      rw [zigzag_dec_nonneg hn hhi]
    · rw [zigzag_enc_neg hlo hn]
      have hU : (toUint32 (-2 * n - 1) : Int) = -2 * n - 1 := by rw [toUint32_int_eq]; omega
      have h5 := varIntBytes_length_le_five (toUint32_lt (-2 * n - 1))
      have hrt := varint_roundtrip b off (-2 * n - 1) hwf (by omega)
      refine ⟨(varIntBytes (toUint32 (-2 * n - 1))).length,
        varIntBytes_length_pos _, h5, hrt.1, ?_⟩
      unfold ByteBuf.getVarZint
      rw [hrt.2, toInt32_of_range (by omega) (by omega)]
      show Except.ok (⟨jsXor (jsSar (-2 * n - 1) 1) (-(jsAnd (-2 * n - 1) 1)),
        (varIntBytes (toUint32 (-2 * n - 1))).length⟩ : IntResult) =
        Except.ok ⟨n, (varIntBytes (toUint32 (-2 * n - 1))).length⟩
      rw [zigzag_dec_neg hlo hn]
  · -- n = 255 encodes as [0xfe, 0x03]
    unfold ByteBuf.setVarZint
    rw [show jsXor (jsSar 255 31) (jsShl 255 1) = 510 from
      zigzag_enc_nonneg (by norm_num) (by norm_num)]
    have hb : varIntBytes (toUint32 510) = [254, 3] := by
      rw [show toUint32 510 = 510 from rfl, varIntBytes_510]
    have hset := setVarInt_spec b off 510 (by rw [hb]; simpa using by omega)
    rw [hset]
    refine ⟨by rw [hb]; rfl, ?_⟩
    intro j hj
    show (writeList b.buffer (b.viewOffset + off) (varIntBytes (toUint32 510))).getD
      (b.viewOffset + off + j) 0 = [0xfe, 0x03].getD j 0
    rw [List.getD_eq_getElem?_getD, List.getD_eq_getElem?_getD,
      writeList_getElem?_mem _ _ _ _ (by rw [hb]; simpa using hj)
        (by unfold ByteBuf.wf at hwf; rw [hb]; simp; omega), hb]
  · -- n = -1 encodes as [0x01]
    unfold ByteBuf.setVarZint
    rw [show jsXor (jsSar (-1) 31) (jsShl (-1) 1) = 1 from (by
      have := zigzag_enc_neg (n := -1) (by norm_num) (by norm_num)
      norm_num at this
      exact this)]
    have hb : varIntBytes (toUint32 1) = [1] := by
      rw [show toUint32 1 = 1 from rfl, varIntBytes_1]
    have hset := setVarInt_spec b off 1 (by rw [hb]; simpa using by omega)
    rw [hset]
    refine ⟨by rw [hb]; rfl, ?_⟩
    intro j hj
    show (writeList b.buffer (b.viewOffset + off) (varIntBytes (toUint32 1))).getD
      (b.viewOffset + off + j) 0 = [0x01].getD j 0
    rw [List.getD_eq_getElem?_getD, List.getD_eq_getElem?_getD,
      writeList_getElem?_mem _ _ _ _ (by rw [hb]; simpa using hj)
        (by unfold ByteBuf.wf at hwf; rw [hb]; simp; omega), hb]

/-- Witness for the amended C2 at `n = 255` on a concrete buffer. -/
theorem c2_zigzag_roundtrip_amended_witness :
    (ByteBuf.wf ⟨[0, 0, 0, 0, 0], 0, 5, 0⟩) ∧ (0 + 5 ≤ (5 : Nat)) ∧
    (-1073741824 ≤ (255 : Int)) ∧ ((255 : Int) < 1073741824) ∧
    (∃ len, 1 ≤ len ∧ len ≤ 5 ∧
      ((⟨[0, 0, 0, 0, 0], 0, 5, 0⟩ : ByteBuf).setVarZint 0 255 none).1 = .ok len ∧
      ((⟨[0, 0, 0, 0, 0], 0, 5, 0⟩ : ByteBuf).setVarZint 0 255 none).2.getVarZint 0 none =
        .ok ⟨255, len⟩) :=
  ⟨by norm_num [ByteBuf.wf], by decide, by decide, by decide,
    (c2_zigzag_roundtrip_amended ⟨[0, 0, 0, 0, 0], 0, 5, 0⟩ 0 255
      (by norm_num [ByteBuf.wf]) (by decide) (by decide) (by decide)).1⟩

/-- Claim C3 (code bug): for a freshly constructed view whose byteOffset
into the underlying memory is 1, the cursor (the source's private
`#byteOffset`, exposed by the `byteOffset` getter and consumed
view-relatively by every streaming accessor) starts at 1, not 0, because
the field initialiser is `#byteOffset = super.byteOffset`; `reset()`
restores it to 1, not 0; and `bytesRemaining` consequently reports
`byteLength - 1 = 0` on the fresh view. Only the
`remaining = byteLength - position` relation of the claim holds (last
conjunct). -/
theorem c3_cursor_init_bug :
    ByteBuf.from' (.arrayBuffer [0, 0]) (some 1) none = .ok ⟨[0, 0], 1, 1, 1⟩ ∧
    ByteBuf.byteOffset ⟨[0, 0], 1, 1, 1⟩ = 1 ∧
    (ByteBuf.reset ⟨[0, 0], 1, 1, 3⟩).pos = 1 ∧
    ByteBuf.bytesRemaining ⟨[0, 0], 1, 1, 1⟩ = 0 ∧
    (∀ b : ByteBuf, b.reset.pos = b.viewOffset) ∧
    (∀ b : ByteBuf, b.bytesRemaining = (b.byteLength : Int) - b.byteOffset) :=
  ⟨by decide, rfl, rfl, by decide, fun b => rfl, fun b => rfl⟩

/-- Claim C6 counterexample: `from(source, 2, 3)` on a 4-byte source does
not produce a view of byteLength `min(3, 2) = 2` — the code clamps the
requested length with `Math.min(source.byteLength, byteLength) = 3`,
ignoring the offset, and the `DataView` constructor then throws; and with
the length omitted, a view source covering only 2 of its buffer's 4 bytes
yields a view of byteLength 4 (to the buffer's end), not the source's
remaining 2 bytes. -/
theorem c6_from_counterexample :
    ByteBuf.from' (.arrayBuffer [0, 0, 0, 0]) (some 2) (some 3) = .error .outOfBounds ∧
    ByteBuf.from' (.view ⟨[0, 0, 0, 0], 0, 2⟩) none none = .ok ⟨[0, 0, 0, 0], 0, 4, 0⟩ ∧
    (4 : Nat) ≠ 2 :=
  ⟨by decide, by decide, by decide⟩

/-- Claim C6 (amended): with a length given, the resulting byteLength is
`min(source.byteLength, requested)` — clamped against the source's total
byteLength rather than its remaining length past the offset — provided
that window still fits in the underlying buffer; otherwise construction
fails with a range error. With the length omitted the view runs to the
end of the underlying buffer (which is "all remaining bytes of the
source" only when the source reaches the buffer's end). -/
theorem c6_from_amended :
    (∀ (data : List Nat) (off len : Nat), off + min data.length len ≤ data.length →
      ByteBuf.from' (.arrayBuffer data) (some off) (some len) =
        .ok ⟨data, off, min data.length len, off⟩) ∧
    (∀ (v : BufferView) (off len : Nat),
      v.byteOffset + off + min v.byteLength len ≤ v.buffer.length →
      ByteBuf.from' (.view v) (some off) (some len) =
        .ok ⟨v.buffer, v.byteOffset + off, min v.byteLength len, v.byteOffset + off⟩) ∧
    (∀ (v : BufferView) (off : Nat), v.byteOffset + off ≤ v.buffer.length →
      ByteBuf.from' (.view v) (some off) none =
        .ok ⟨v.buffer, v.byteOffset + off, v.buffer.length - (v.byteOffset + off),
          v.byteOffset + off⟩) ∧
    (∀ (data : List Nat) (off len : Nat), data.length < off + min data.length len →
      ByteBuf.from' (.arrayBuffer data) (some off) (some len) = .error .outOfBounds) := by
  refine ⟨?_, ?_, ?_, ?_⟩
  · intro data off len h
    unfold ByteBuf.from' dataViewNew
    simp only [Option.getD_some]
    rw [if_neg (by omega), if_neg (by omega)]
  · intro v off len h
    unfold ByteBuf.from' dataViewNew
    simp only [Option.getD_some]
    rw [if_neg (by omega), if_neg (by omega)]
  · intro v off h
    unfold ByteBuf.from' dataViewNew
    simp only [Option.getD_some]
    rw [if_neg (by omega)]
  · intro data off len h
    unfold ByteBuf.from' dataViewNew
    simp only [Option.getD_some]
    by_cases hoff : off > data.length
    · rw [if_pos hoff]
    · rw [if_neg hoff, if_pos (by omega)]

/-- Witness for the amended C6, discharging each conjunct's hypothesis at
concrete inputs. -/
theorem c6_from_amended_witness :
    ByteBuf.from' (.arrayBuffer [0, 0, 0]) (some 0) (some 5) = .ok ⟨[0, 0, 0], 0, 3, 0⟩ ∧
    ByteBuf.from' (.view ⟨[0, 0, 0, 0], 1, 2⟩) (some 1) (some 9) =
      .ok ⟨[0, 0, 0, 0], 2, 2, 2⟩ ∧
    ByteBuf.from' (.view ⟨[0, 0, 0, 0], 1, 2⟩) (some 1) none = .ok ⟨[0, 0, 0, 0], 2, 2, 2⟩ ∧
    ByteBuf.from' (.arrayBuffer [0, 0]) (some 1) (some 2) = .error .outOfBounds := by
  refine ⟨?_, ?_, ?_, ?_⟩
  · have h := (c6_from_amended.1) [0, 0, 0] 0 5 (by decide)
    simpa using h
  · have h := (c6_from_amended.2.1) ⟨[0, 0, 0, 0], 1, 2⟩ 1 9 (by decide)
    simpa using h
  · have h := (c6_from_amended.2.2.1) ⟨[0, 0, 0, 0], 1, 2⟩ 1 (by decide)
    simpa using h
  · have h := (c6_from_amended.2.2.2) [0, 0] 1 2 (by decide)
    simpa using h

/-- Claim C9 counterexample: on a view of byteLength 1 over a 2-byte
buffer, `getUint8Array(0)` with the byteLength omitted aliases both bytes
`[7, 8]` — one byte beyond the view's end — and `getString(0)` decodes
both bytes; the omitted length runs to the end of the underlying buffer,
not of the view. -/
theorem c9_subview_counterexample :
    (⟨[7, 8], 0, 1, 0⟩ : ByteBuf).getUint8Array 0 none = .ok [7, 8] ∧
    ¬ (([7, 8] : List Nat).length ≤ ByteBuf.byteLength ⟨[7, 8], 0, 1, 0⟩ - 0) ∧
    (⟨[65, 66], 0, 1, 0⟩ : ByteBuf).getString 0 none none = .ok "AB" :=
  ⟨by decide, by decide, by decide⟩

/-- Claim C9 (amended): `getUint8Array(offset)` and `getString(offset)`
with the byteLength omitted cover exactly the bytes from
`super.byteOffset + offset` to the end of the underlying buffer; this
equals "offset to the view's end" precisely when the view extends to the
buffer's end. -/
theorem c9_subview_amended (b : ByteBuf) (off : Nat)
    (h : b.viewOffset + off ≤ b.buffer.length) :
    b.getUint8Array off none = .ok (b.buffer.drop (b.viewOffset + off)) ∧
    (b.buffer.drop (b.viewOffset + off)).length = b.buffer.length - (b.viewOffset + off) ∧
    (b.viewOffset + b.viewLength = b.buffer.length →
      (b.buffer.drop (b.viewOffset + off)).length = b.viewLength - off) ∧
    b.getString off none none = .ok ⟨utf8Decode (b.buffer.drop (b.viewOffset + off))⟩ := by
  have h1 : b.getUint8Array off none = .ok (b.buffer.drop (b.viewOffset + off)) := by
    unfold ByteBuf.getUint8Array ByteBuf.uint8ArrayNew
    rw [if_pos h]
  refine ⟨h1, by rw [List.length_drop], ?_, ?_⟩
  · intro hend
    rw [List.length_drop]
    omega
  · unfold ByteBuf.getString
    simp only [h1]
    rfl

/-- Witness for the amended C9: a truncated view (first component) and a
view reaching the buffer's end (discharging the inner implication). -/
theorem c9_subview_amended_witness :
    (⟨[7, 8], 0, 1, 0⟩ : ByteBuf).getUint8Array 0 none =
      .ok (([7, 8] : List Nat).drop 0) ∧
    (([7, 8] : List Nat).drop (0 + 1)).length = 2 - 1 ∧
    (⟨[7, 8], 0, 2, 0⟩ : ByteBuf).getString 0 none none =
      .ok ⟨utf8Decode (([7, 8] : List Nat).drop 0)⟩ :=
  ⟨(c9_subview_amended ⟨[7, 8], 0, 1, 0⟩ 0 (by decide)).1,
   (c9_subview_amended ⟨[7, 8], 0, 2, 1⟩ 1 (by decide)).2.2.1 (by decide),
   (c9_subview_amended ⟨[7, 8], 0, 2, 0⟩ 0 (by decide)).2.2.2⟩

/-! ### Fixed-width store/load round-trip -/

theorem loadBytes_after_writeList (b : ByteBuf) (off : Nat) (bs : List Nat)
    (hwf : b.wf) (hlen : off + bs.length ≤ b.viewLength) :
    ByteBuf.loadBytes ⟨writeList b.buffer (b.viewOffset + off) bs,
      b.viewOffset, b.viewLength, b.pos⟩ off bs.length = .ok bs := by
  unfold ByteBuf.loadBytes
  rw [if_pos (by simpa using hlen)]
  congr 1
  apply List.ext_getElem
  · simp
  · intro i h1 h2
    simp only [List.getElem_map, List.getElem_range]
    have hmem := writeList_getElem?_mem bs b.buffer (b.viewOffset + off) i
      (by simpa using h1) (by unfold ByteBuf.wf at hwf; omega)
    have : bs[i]? = some bs[i] := List.getElem?_eq_getElem h2
    rw [List.getD_eq_getElem?_getD]
    show ((writeList b.buffer (b.viewOffset + off) bs)[b.viewOffset + off + i]?).getD 0 = bs[i]
    rw [hmem, this]
    rfl

theorem storeUint_loadUint (b : ByteBuf) (off w : Nat) (le : Bool) (u : Nat)
    (hwf : b.wf) (hlen : off + w ≤ b.viewLength) (hu : u < 256 ^ w) :
    (b.storeUint off w le u).1 = .ok () ∧
    (b.storeUint off w le u).2.loadUint off w le = .ok u := by
  have hblen : (if le then leBytes w u else (leBytes w u).reverse).length = w := by
    cases le <;> simp [leBytes_length]
  unfold ByteBuf.storeUint ByteBuf.storeBytes
  rw [if_pos (by rw [hblen]; exact hlen)]
  refine ⟨rfl, ?_⟩
  unfold ByteBuf.loadUint
  have hload := loadBytes_after_writeList b off
    (if le then leBytes w u else (leBytes w u).reverse) hwf (by rw [hblen]; exact hlen)
  rw [hblen] at hload
  show (match ByteBuf.loadBytes ⟨writeList b.buffer (b.viewOffset + off)
      (if le then leBytes w u else (leBytes w u).reverse),
      b.viewOffset, b.viewLength, b.pos⟩ off w with
    | .error e => (.error e : Except JsErr Nat)
    | .ok bs => .ok (leValue (if le then bs else bs.reverse))) = .ok u
  rw [hload]
  cases le
  · show Except.ok (leValue (leBytes w u).reverse.reverse) = Except.ok u
    rw [List.reverse_reverse, leValue_leBytes, Nat.mod_eq_of_lt hu]
  · show Except.ok (leValue (leBytes w u)) = Except.ok u
    rw [leValue_leBytes, Nat.mod_eq_of_lt hu]

theorem toSigned64_toUnsigned64 {z : Int}
    (h1 : -9223372036854775808 ≤ z) (h2 : z < 9223372036854775808) :
    toSigned 64 (toUnsigned 64 z) = z := by
  unfold toSigned toUnsigned
  norm_num
  split <;> omega

theorem f64roundInt_small {v : Int}
    (h1 : -9007199254740992 < v) (h2 : v < 9007199254740992) :
    f64roundInt v = v := by
  unfold f64roundInt f64roundPos
  split
  · rw [if_pos (by omega)]
    omega
  · rw [if_pos (by omega)]
    omega

/-- Claim C5 counterexample: `setInt64` then `getInt64` does not
round-trip `2^53 + 1`: the `number` path truncates to the nearest float64
`2^53` (the stored little-endian bytes are those of `2^53`), so the full
signed 64-bit domain does not survive the `Int64` accessors. -/
theorem c5_int64_precision_counterexample :
    (⟨[0, 0, 0, 0, 0, 0, 0, 0], 0, 8, 0⟩ : ByteBuf).setInt64 0 9007199254740993 true =
      (.ok (), ⟨[0, 0, 0, 0, 0, 0, 32, 0], 0, 8, 0⟩) ∧
    (⟨[0, 0, 0, 0, 0, 0, 32, 0], 0, 8, 0⟩ : ByteBuf).getInt64 0 true =
      .ok 9007199254740992 ∧
    (9007199254740992 : Int) ≠ 9007199254740993 :=
  ⟨by decide, by decide, by decide⟩

/-- Claim C5 (amended): the `BigInt64`/`BigUint64` accessors round-trip
the full signed resp. unsigned 64-bit domains exactly, for both byte
orders; the `Number`-typed `Int64`/`Uint64` accessors round-trip exactly
the values within float64 integer precision — every `|v| ≤ 2^53 - 1`
resp. `0 ≤ v ≤ 2^53 - 1`, covering the magnitudes the test fixtures
reach — and beyond that the `Number` conversions truncate: the last
conjunct shows the unsigned pair collapsing `2^53 + 1` to `2^53`, and the
counterexample shows the same for the signed pair. -/
theorem c5_int64_amended (b : ByteBuf) (off : Nat) (le : Bool)
    (hwf : b.wf) (hlen : off + 8 ≤ b.viewLength) :
    (∀ z : Int, -9223372036854775808 ≤ z → z < 9223372036854775808 →
      (b.setBigInt64 off z le).1 = .ok () ∧
      (b.setBigInt64 off z le).2.getBigInt64 off le = .ok z) ∧
    (∀ z : Int, 0 ≤ z → z < 18446744073709551616 →
      (b.setBigUint64 off z le).1 = .ok () ∧
      (b.setBigUint64 off z le).2.getBigUint64 off le = .ok z) ∧
    (∀ v : Int, -9007199254740992 < v → v < 9007199254740992 →
      (b.setInt64 off v le).1 = .ok () ∧
      (b.setInt64 off v le).2.getInt64 off le = .ok v) ∧
    (∀ v : Int, 0 ≤ v → v < 9007199254740992 →
      (b.setUint64 off v le).1 = .ok () ∧
      (b.setUint64 off v le).2.getUint64 off le = .ok v) ∧
    (b.setUint64 off 9007199254740993 le).2.getUint64 off le =
      .ok 9007199254740992 := by
  have hkey : ∀ z : Int, -9223372036854775808 ≤ z → z < 9223372036854775808 →
      (b.setBigInt64 off z le).1 = .ok () ∧
      (b.setBigInt64 off z le).2.getBigInt64 off le = .ok z := by
    intro z hz1 hz2
    have hu : toUnsigned 64 z < 256 ^ 8 := by
      unfold toUnsigned
      norm_num
      omega
    have hrt := storeUint_loadUint b off 8 le (toUnsigned 64 z) hwf hlen hu
    unfold ByteBuf.setBigInt64
    refine ⟨hrt.1, ?_⟩
    unfold ByteBuf.getBigInt64
    rw [hrt.2]
    show Except.ok (toSigned 64 (toUnsigned 64 z)) = Except.ok z
    rw [toSigned64_toUnsigned64 hz1 hz2]
  have hkeyU : ∀ z : Int, 0 ≤ z → z < 18446744073709551616 →
      (b.setBigUint64 off z le).1 = .ok () ∧
      (b.setBigUint64 off z le).2.getBigUint64 off le = .ok z := by
    intro z hz1 hz2
    have hu : toUnsigned 64 z < 256 ^ 8 := by
      unfold toUnsigned
      norm_num
      omega
    have hrt := storeUint_loadUint b off 8 le (toUnsigned 64 z) hwf hlen hu
    unfold ByteBuf.setBigUint64
    refine ⟨hrt.1, ?_⟩
    unfold ByteBuf.getBigUint64
    rw [hrt.2]
    show Except.ok ((toUnsigned 64 z : Nat) : Int) = Except.ok z
    have hz : ((toUnsigned 64 z : Nat) : Int) = z := by
      unfold toUnsigned
      norm_num
      omega
    rw [hz]
  have hInt : ∀ v : Int, -9007199254740992 < v → v < 9007199254740992 →
      (b.setInt64 off v le).1 = .ok () ∧
      (b.setInt64 off v le).2.getInt64 off le = .ok v := by
    intro v hv1 hv2
    unfold ByteBuf.setInt64
    rw [f64roundInt_small hv1 hv2]
    have h := hkey v (by omega) (by omega)
    refine ⟨h.1, ?_⟩
    unfold ByteBuf.getInt64
    rw [h.2]
    show Except.ok (f64roundInt v) = Except.ok v
    rw [f64roundInt_small hv1 hv2]
  have hUint : ∀ v : Int, 0 ≤ v → v < 9007199254740992 →
      (b.setUint64 off v le).1 = .ok () ∧
      (b.setUint64 off v le).2.getUint64 off le = .ok v := by
    intro v hv1 hv2
    unfold ByteBuf.setUint64
    rw [f64roundInt_small (by omega) (by omega)]
    have h := hkeyU v (by omega) (by omega)
    refine ⟨h.1, ?_⟩
    unfold ByteBuf.getUint64
    rw [h.2]
    show Except.ok (f64roundInt v) = Except.ok v
    rw [f64roundInt_small (by omega) (by omega)]
  have htr : (b.setUint64 off 9007199254740993 le).2.getUint64 off le =
      .ok 9007199254740992 := by
    unfold ByteBuf.setUint64
    rw [show f64roundInt 9007199254740993 = 9007199254740992 from by decide]
    have h := hkeyU 9007199254740992 (by norm_num) (by norm_num)
    unfold ByteBuf.getUint64
    rw [h.2]
    show Except.ok (f64roundInt 9007199254740992) = Except.ok 9007199254740992
    rw [show f64roundInt 9007199254740992 = 9007199254740992 from by decide]
  exact ⟨hkey, hkeyU, hInt, hUint, htr⟩

/-- Witness for the amended C5 on a concrete 8-byte buffer: `z = -1` for
the `BigInt64` path, `z = 2^64 - 1` for the `BigUint64` path,
`v = 2^53 - 1` for both `Number`-typed paths, and the `2^53 + 1`
truncation of the unsigned pair. -/
theorem c5_int64_amended_witness :
    (ByteBuf.wf ⟨[0, 0, 0, 0, 0, 0, 0, 0], 0, 8, 0⟩) ∧ (0 + 8 ≤ (8 : Nat)) ∧
    (((⟨[0, 0, 0, 0, 0, 0, 0, 0], 0, 8, 0⟩ : ByteBuf).setBigInt64 0 (-1) true).2.getBigInt64
      0 true = .ok (-1)) ∧
    (((⟨[0, 0, 0, 0, 0, 0, 0, 0], 0, 8, 0⟩ : ByteBuf).setBigUint64 0 18446744073709551615
      true).2.getBigUint64 0 true = .ok 18446744073709551615) ∧
    (((⟨[0, 0, 0, 0, 0, 0, 0, 0], 0, 8, 0⟩ : ByteBuf).setInt64 0 9007199254740991
      true).2.getInt64 0 true = .ok 9007199254740991) ∧
    (((⟨[0, 0, 0, 0, 0, 0, 0, 0], 0, 8, 0⟩ : ByteBuf).setUint64 0 9007199254740991
      true).2.getUint64 0 true = .ok 9007199254740991) ∧
    (((⟨[0, 0, 0, 0, 0, 0, 0, 0], 0, 8, 0⟩ : ByteBuf).setUint64 0 9007199254740993
      true).2.getUint64 0 true = .ok 9007199254740992) := by
  have h := c5_int64_amended ⟨[0, 0, 0, 0, 0, 0, 0, 0], 0, 8, 0⟩ 0 true
    (by norm_num [ByteBuf.wf]) (by decide)
  exact ⟨by norm_num [ByteBuf.wf], by decide,
    (h.1 (-1) (by decide) (by decide)).2,
    (h.2.1 18446744073709551615 (by decide) (by decide)).2,
    (h.2.2.1 9007199254740991 (by decide) (by decide)).2,
    (h.2.2.2.1 9007199254740991 (by decide) (by decide)).2,
    h.2.2.2.2⟩

/-! ### Claim C7: VarInt length cap -/

theorem getVarIntAux_all_cont (b : ByteBuf) (off : Nat) :
    ∀ (fuel : Nat) (acc : Int) (k shift : Nat),
    off + k + fuel ≤ b.viewLength →
    (∀ j, j < fuel → 128 ≤ b.buffer.getD (b.viewOffset + off + k + j) 0 ∧
      b.buffer.getD (b.viewOffset + off + k + j) 0 < 256) →
    ByteBuf.getVarIntAux b off fuel acc k shift = .error .lengthExceeded := by
  intro fuel
  induction fuel with
  | zero => intro acc k shift _ _; rfl
  | succ fuel ih =>
    intro acc k shift hlen hbytes
    have hbyte := hbytes 0 (by omega)
    have hget : b.getUint8 (off + k) = .ok (b.buffer.getD (b.viewOffset + off + k + 0) 0) := by
      unfold ByteBuf.getUint8
      rw [if_pos (by omega), show b.viewOffset + (off + k) = b.viewOffset + off + k + 0
        by omega]
    unfold ByteBuf.getVarIntAux
    rw [hget]
    simp only
    rw [jsAnd_byte_128_ge hbyte.1 hbyte.2, if_neg (by norm_num)]
    apply ih
    · omega
    · intro j hj
      have := hbytes (j + 1) (by omega)
      rw [show b.viewOffset + off + (k + 1) + j = b.viewOffset + off + k + (j + 1) by omega]
      exact this

/-- Claim C7: if each of the `maxByteLength` (default 10) bytes starting
at the offset has the continuation bit `0x80` set, `getVarInt` fails with
the length-exceeded `RangeError` — no partial result is produced — and
the streaming `readVarInt` propagates the failure with the cursor
position unchanged. -/
theorem c7_varint_length_exceeded (b : ByteBuf) (m : Option Nat) :
    (∀ off : Nat, off + m.getD 10 ≤ b.viewLength →
      (∀ j, j < m.getD 10 → 128 ≤ b.buffer.getD (b.viewOffset + off + j) 0 ∧
        b.buffer.getD (b.viewOffset + off + j) 0 < 256) →
      b.getVarInt off m = .error .lengthExceeded) ∧
    (b.pos + m.getD 10 ≤ b.viewLength →
      (∀ j, j < m.getD 10 → 128 ≤ b.buffer.getD (b.viewOffset + b.pos + j) 0 ∧
        b.buffer.getD (b.viewOffset + b.pos + j) 0 < 256) →
      b.readVarInt m = (.error .lengthExceeded, b)) := by
  have hmain : ∀ off : Nat, off + m.getD 10 ≤ b.viewLength →
      (∀ j, j < m.getD 10 → 128 ≤ b.buffer.getD (b.viewOffset + off + j) 0 ∧
        b.buffer.getD (b.viewOffset + off + j) 0 < 256) →
      b.getVarInt off m = .error .lengthExceeded := by
    intro off hlen hbytes
    unfold ByteBuf.getVarInt
    apply getVarIntAux_all_cont b off (m.getD 10) 0 0 0 (by omega)
    intro j hj
    rw [show b.viewOffset + off + 0 + j = b.viewOffset + off + j by omega]
    exact hbytes j hj
  refine ⟨hmain, ?_⟩
  intro hlen hbytes
  unfold ByteBuf.readVarInt
  rw [hmain b.pos hlen hbytes]

/-- Witness for C7: ten `0xff` bytes, default `maxByteLength`. -/
theorem c7_varint_length_exceeded_witness :
    ((0 : Nat) + (none : Option Nat).getD 10 ≤ 10) ∧
    ByteBuf.getVarInt ⟨List.replicate 10 255, 0, 10, 0⟩ 0 none = .error .lengthExceeded ∧
    ByteBuf.readVarInt ⟨List.replicate 10 255, 0, 10, 0⟩ none =
      (.error .lengthExceeded, ⟨List.replicate 10 255, 0, 10, 0⟩) := by
  have h := c7_varint_length_exceeded ⟨List.replicate 10 255, 0, 10, 0⟩ none
  exact ⟨by decide, h.1 0 (by decide) (by decide), h.2 (by decide) (by decide)⟩

/-! ### Claim C10: cursor behaviour of failing streaming reads -/

theorem loadUint_oob (b : ByteBuf) (off w : Nat) (le : Bool)
    (h : b.viewLength < off + w) : b.loadUint off w le = .error .outOfBounds := by
  unfold ByteBuf.loadUint ByteBuf.loadBytes
  rw [if_neg (by omega)]

theorem getUint8_oob (b : ByteBuf) (off : Nat)
    (h : b.viewLength < off + 1) : b.getUint8 off = .error .outOfBounds := by
  unfold ByteBuf.getUint8
  rw [if_neg (by omega)]

/-- Claim C10: when a streaming fixed-width read fails because the access
is outside the view's byte range, every multi-byte read (`readInt16`,
`readUint16`, `readInt32`, `readUint32`, `readFloat32`, `readFloat64`,
`readInt64`, `readUint64`, `readBigInt64`, `readBigUint64`) leaves the
cursor position unchanged, while each one-byte read (`readBool`,
`readInt8`, `readUint8`) has already advanced the cursor by 1 when the
error surfaces, because the source post-increments `#byteOffset` before
the bounds check runs. -/
theorem c10_failing_read_cursor (b : ByteBuf) (le : Bool) :
    (b.viewLength < b.pos + 2 → b.readInt16 le = (.error .outOfBounds, b)) ∧
    (b.viewLength < b.pos + 2 → b.readUint16 le = (.error .outOfBounds, b)) ∧
    (b.viewLength < b.pos + 4 → b.readInt32 le = (.error .outOfBounds, b)) ∧
    (b.viewLength < b.pos + 4 → b.readUint32 le = (.error .outOfBounds, b)) ∧
    (b.viewLength < b.pos + 4 → b.readFloat32 le = (.error .outOfBounds, b)) ∧
    (b.viewLength < b.pos + 8 → b.readFloat64 le = (.error .outOfBounds, b)) ∧
    (b.viewLength < b.pos + 8 → b.readInt64 le = (.error .outOfBounds, b)) ∧
    (b.viewLength < b.pos + 8 → b.readUint64 le = (.error .outOfBounds, b)) ∧
    (b.viewLength < b.pos + 8 → b.readBigInt64 le = (.error .outOfBounds, b)) ∧
    (b.viewLength < b.pos + 8 → b.readBigUint64 le = (.error .outOfBounds, b)) ∧
    (b.viewLength < b.pos + 1 →
      b.readBool = (.error .outOfBounds, { b with pos := b.pos + 1 })) ∧
    (b.viewLength < b.pos + 1 →
      b.readInt8 = (.error .outOfBounds, { b with pos := b.pos + 1 })) ∧
    (b.viewLength < b.pos + 1 →
      b.readUint8 = (.error .outOfBounds, { b with pos := b.pos + 1 })) := by
  refine ⟨?_, ?_, ?_, ?_, ?_, ?_, ?_, ?_, ?_, ?_, ?_, ?_, ?_⟩ <;> intro h
  · unfold ByteBuf.readInt16 ByteBuf.getInt16
    rw [loadUint_oob b b.pos 2 le h]
  · unfold ByteBuf.readUint16 ByteBuf.getUint16
    rw [loadUint_oob b b.pos 2 le h]
  · unfold ByteBuf.readInt32 ByteBuf.getInt32
    rw [loadUint_oob b b.pos 4 le h]
  · unfold ByteBuf.readUint32 ByteBuf.getUint32
    rw [loadUint_oob b b.pos 4 le h]
  · unfold ByteBuf.readFloat32 ByteBuf.getFloat32
    rw [loadUint_oob b b.pos 4 le h]
  · unfold ByteBuf.readFloat64 ByteBuf.getFloat64
    rw [loadUint_oob b b.pos 8 le h]
  · unfold ByteBuf.readInt64 ByteBuf.getInt64 ByteBuf.getBigInt64
    rw [loadUint_oob b b.pos 8 le h]
  · unfold ByteBuf.readUint64 ByteBuf.getUint64 ByteBuf.getBigUint64
    rw [loadUint_oob b b.pos 8 le h]
  · unfold ByteBuf.readBigInt64 ByteBuf.getBigInt64
    rw [loadUint_oob b b.pos 8 le h]
  · unfold ByteBuf.readBigUint64 ByteBuf.getBigUint64
    rw [loadUint_oob b b.pos 8 le h]
  · unfold ByteBuf.readBool ByteBuf.getBool ByteBuf.getInt8
    rw [getUint8_oob b b.pos h]
  · unfold ByteBuf.readInt8 ByteBuf.getInt8
    rw [getUint8_oob b b.pos h]
  · unfold ByteBuf.readUint8
    rw [getUint8_oob b b.pos h]

/-- Witness for C10 on an empty view, all thirteen conclusions discharged. -/
theorem c10_failing_read_cursor_witness :
    ByteBuf.readInt16 ⟨[], 0, 0, 0⟩ false = (.error .outOfBounds, ⟨[], 0, 0, 0⟩) ∧
    ByteBuf.readUint16 ⟨[], 0, 0, 0⟩ false = (.error .outOfBounds, ⟨[], 0, 0, 0⟩) ∧
    ByteBuf.readInt32 ⟨[], 0, 0, 0⟩ false = (.error .outOfBounds, ⟨[], 0, 0, 0⟩) ∧
    ByteBuf.readUint32 ⟨[], 0, 0, 0⟩ false = (.error .outOfBounds, ⟨[], 0, 0, 0⟩) ∧
    ByteBuf.readFloat32 ⟨[], 0, 0, 0⟩ false = (.error .outOfBounds, ⟨[], 0, 0, 0⟩) ∧
    ByteBuf.readFloat64 ⟨[], 0, 0, 0⟩ false = (.error .outOfBounds, ⟨[], 0, 0, 0⟩) ∧
    ByteBuf.readInt64 ⟨[], 0, 0, 0⟩ false = (.error .outOfBounds, ⟨[], 0, 0, 0⟩) ∧
    ByteBuf.readUint64 ⟨[], 0, 0, 0⟩ false = (.error .outOfBounds, ⟨[], 0, 0, 0⟩) ∧
    ByteBuf.readBigInt64 ⟨[], 0, 0, 0⟩ false = (.error .outOfBounds, ⟨[], 0, 0, 0⟩) ∧
    ByteBuf.readBigUint64 ⟨[], 0, 0, 0⟩ false = (.error .outOfBounds, ⟨[], 0, 0, 0⟩) ∧
    ByteBuf.readBool ⟨[], 0, 0, 0⟩ = (.error .outOfBounds, ⟨[], 0, 0, 1⟩) ∧
    ByteBuf.readInt8 ⟨[], 0, 0, 0⟩ = (.error .outOfBounds, ⟨[], 0, 0, 1⟩) ∧
    ByteBuf.readUint8 ⟨[], 0, 0, 0⟩ = (.error .outOfBounds, ⟨[], 0, 0, 1⟩) := by
  have h := c10_failing_read_cursor ⟨[], 0, 0, 0⟩ false
  exact ⟨h.1 (by decide), h.2.1 (by decide), h.2.2.1 (by decide), h.2.2.2.1 (by decide),
    h.2.2.2.2.1 (by decide), h.2.2.2.2.2.1 (by decide), h.2.2.2.2.2.2.1 (by decide),
    h.2.2.2.2.2.2.2.1 (by decide), h.2.2.2.2.2.2.2.2.1 (by decide),
    h.2.2.2.2.2.2.2.2.2.1 (by decide), h.2.2.2.2.2.2.2.2.2.2.1 (by decide),
    h.2.2.2.2.2.2.2.2.2.2.2.1 (by decide), h.2.2.2.2.2.2.2.2.2.2.2.2 (by decide)⟩

/-! ### Claim C8: text-encoding validation -/

theorem uint8ArrayNew_error {d : List Nat} {o : Nat} {l : Option Nat} {e : JsErr}
    (h : ByteBuf.uint8ArrayNew d o l = .error e) : e = .outOfBounds := by
  unfold ByteBuf.uint8ArrayNew at h
  rcases l with _ | len <;> simp only at h <;> split at h <;> simp at h <;> exact h.symm

theorem getString_utf8_eq (b : ByteBuf) (off : Nat) (len : Option Nat)
    (enc : Option String) (henc : enc = none ∨ enc = some "" ∨ enc = some "utf-8") :
    b.getString off len enc =
      match b.getUint8Array off len with
      | .error e => .error e
      | .ok bytes => .ok ⟨utf8Decode bytes⟩ := by
  rcases henc with rfl | rfl | rfl <;> rfl

/-- Claim C8 counterexample: `getString` with the non-UTF-8 encoding
`"latin1"` does not fail with an unsupported-encoding error — the label
is forwarded to the platform `TextDecoder`, which recognises it
(windows-1252) and decodes the byte `0x41` to `"A"`. -/
theorem c8_encoding_counterexample :
    (⟨[65], 0, 1, 0⟩ : ByteBuf).getString 0 none (some "latin1") = .ok "A" ∧
    ("latin1" : String) ≠ "utf-8" :=
  ⟨by decide, by decide⟩

/-- Claim C8 (amended): `setString` rejects every present, non-empty
encoding other than `"utf-8"` with the unsupported-encoding error,
leaving the buffer untouched, and never raises that error for UTF-8 or an
omitted encoding; `getString` performs no such validation: it forwards
the label to the platform decoder, so UTF-8 and omitted labels never
yield that error, and a recognised non-UTF-8 label such as `"latin1"` is
decoded without any error. -/
theorem c8_encoding_amended :
    (∀ (b : ByteBuf) (off : Nat) (v : String) (s : String), s ≠ "" → s ≠ "utf-8" →
      b.setString off v (some s) = (.error .unsupportedEncoding, b)) ∧
    (∀ (b : ByteBuf) (off : Nat) (v : String),
      (b.setString off v none).1 ≠ .error .unsupportedEncoding ∧
      (b.setString off v (some "utf-8")).1 ≠ .error .unsupportedEncoding) ∧
    (∀ (b : ByteBuf) (off : Nat) (len : Option Nat),
      b.getString off len none ≠ .error .unsupportedEncoding ∧
      b.getString off len (some "utf-8") ≠ .error .unsupportedEncoding) ∧
    (⟨[65], 0, 1, 0⟩ : ByteBuf).getString 0 none (some "latin1") = .ok "A" := by
  refine ⟨?_, ?_, ?_, by decide⟩
  · intro b off v s h1 h2
    unfold ByteBuf.setString
    rw [if_pos (by simp [h1, h2])]
  · intro b off v
    constructor
    · unfold ByteBuf.setString
      rw [if_neg (by simp)]
      dsimp only
      split
      · simp
      · split <;> simp
    · unfold ByteBuf.setString
      rw [if_neg (by simp)]
      dsimp only
      split
      · simp
      · split <;> simp
  · intro b off len
    constructor
    · rw [getString_utf8_eq b off len none (Or.inl rfl)]
      rcases hx : b.getUint8Array off len with e | bytes
      · have := uint8ArrayNew_error hx
        subst this
        simp
      · simp
    · rw [getString_utf8_eq b off len (some "utf-8") (Or.inr (Or.inr rfl))]
      rcases hx : b.getUint8Array off len with e | bytes
      · have := uint8ArrayNew_error hx
        subst this
        simp
      · simp

/-- Witness for the amended C8 at concrete inputs. -/
theorem c8_encoding_amended_witness :
    ("utf16le" : String) ≠ "" ∧ ("utf16le" : String) ≠ "utf-8" ∧
    (⟨[0], 0, 1, 0⟩ : ByteBuf).setString 0 "x" (some "utf16le") =
      (.error .unsupportedEncoding, ⟨[0], 0, 1, 0⟩) ∧
    (⟨[65], 0, 1, 0⟩ : ByteBuf).getString 0 none none ≠ .error .unsupportedEncoding := by
  have h := c8_encoding_amended
  exact ⟨by decide, by decide,
    h.1 ⟨[0], 0, 1, 0⟩ 0 "x" "utf16le" (by decide) (by decide),
    (h.2.2.1 ⟨[65], 0, 1, 0⟩ 0 none).1⟩

/-! ### Claim C4: cursor discipline -/

/-- Claim C4 counterexample: on a view of byteLength 1 over a 2-byte
buffer, the streaming `readString()` with the byteLength omitted decodes
both underlying bytes (producing the 2-byte string `"AB"`) yet advances
the cursor only to the view's byteLength 1 — the cursor does not increase
by the number of bytes consumed. -/
theorem c4_cursor_discipline_counterexample :
    (⟨[65, 66], 0, 1, 0⟩ : ByteBuf).readString none none =
      (.ok "AB", ⟨[65, 66], 0, 1, 1⟩) ∧
    ("AB".data.map utf8EncodeChar).flatten.length = 2 ∧
    (1 : Nat) ≠ 0 + 2 :=
  ⟨by decide, by decide, by decide⟩

theorem setUint8_pos (b : ByteBuf) (off : Nat) (v : Int) :
    (b.setUint8 off v).2.pos = b.pos := by
  unfold ByteBuf.setUint8
  split <;> rfl

theorem storeBytes_pos (b : ByteBuf) (off : Nat) (bs : List Nat) :
    (b.storeBytes off bs).2.pos = b.pos := by
  unfold ByteBuf.storeBytes
  split <;> rfl

theorem setVarIntAux_pos : ∀ (fuel : Nat) (b : ByteBuf) (off u k : Nat),
    (ByteBuf.setVarIntAux b off u fuel k).2.pos = b.pos := by
  intro fuel
  induction fuel with
  | zero => intro b off u k; rfl
  | succ fuel ih =>
    intro b off u k
    unfold ByteBuf.setVarIntAux
    dsimp only
    split
    · rename_i e b' heq
      have h := setUint8_pos b off
        ((if u / 128 ≠ 0 then u % 128 + 128 else u % 128 : Nat) : Int)
      rw [heq] at h
      exact h
    · rename_i r b' heq
      have hp : b'.pos = b.pos := by
        have h := setUint8_pos b off
          ((if u / 128 ≠ 0 then u % 128 + 128 else u % 128 : Nat) : Int)
        rw [heq] at h
        exact h
      split
      · exact hp
      · rw [ih]
        exact hp

theorem setString_pos (b : ByteBuf) (off : Nat) (v : String) (enc : Option String) :
    (b.setString off v enc).2.pos = b.pos := by
  unfold ByteBuf.setString
  split
  · rfl
  · dsimp only
    split
    · rfl
    · split
      · rfl
      · rfl

theorem setUint8Array_pos (b : ByteBuf) (off : Nat) (arr : List Nat) :
    (b.setUint8Array off arr).2.pos = b.pos := by
  unfold ByteBuf.setUint8Array
  split <;> rfl

theorem setUint16Array_pos (b : ByteBuf) (off : Nat) (arr : List Nat) :
    (b.setUint16Array off arr).2.pos = b.pos := by
  unfold ByteBuf.setUint16Array
  split <;> rfl

theorem loadUint_ok (b : ByteBuf) (off w : Nat) (le : Bool)
    (h : off + w ≤ b.viewLength) : ∃ v, b.loadUint off w le = .ok v := by
  unfold ByteBuf.loadUint ByteBuf.loadBytes
  rw [if_pos h]
  exact ⟨_, rfl⟩

theorem storeUint_ok (b : ByteBuf) (off w : Nat) (le : Bool) (u : Nat)
    (h : off + w ≤ b.viewLength) :
    b.storeUint off w le u =
      (.ok (), { b with buffer := (writeList b.buffer (b.viewOffset + off)
        (if le then leBytes w u else (leBytes w u).reverse)) }) := by
  have hl : (if le then leBytes w u else (leBytes w u).reverse).length = w := by
    cases le <;> simp [leBytes_length]
  unfold ByteBuf.storeUint ByteBuf.storeBytes
  rw [if_pos (by rw [hl]; exact h)]




theorem cursorAdvanceReads_holds (b : ByteBuf) : cursorAdvanceReads b := by
  refine ⟨?_, ?_, ?_, ⟨rfl, rfl, rfl⟩, ?_, ?_, ?_, ?_, ?_, ?_, ?_, ?_⟩
  · intro le h
    obtain ⟨v, hv⟩ := loadUint_ok b b.pos 2 le h
    constructor
    · unfold ByteBuf.readInt16 ByteBuf.getInt16
      rw [hv]
    · unfold ByteBuf.readUint16 ByteBuf.getUint16
      rw [hv]
  · intro le h
    obtain ⟨v, hv⟩ := loadUint_ok b b.pos 4 le h
    refine ⟨?_, ?_, ?_⟩
    · unfold ByteBuf.readInt32 ByteBuf.getInt32
      rw [hv]
    · unfold ByteBuf.readUint32 ByteBuf.getUint32
      rw [hv]
    · unfold ByteBuf.readFloat32 ByteBuf.getFloat32
      rw [hv]
  · intro le h
    obtain ⟨v, hv⟩ := loadUint_ok b b.pos 8 le h
    refine ⟨?_, ?_, ?_, ?_, ?_⟩
    · unfold ByteBuf.readFloat64 ByteBuf.getFloat64
      rw [hv]
    · unfold ByteBuf.readInt64 ByteBuf.getInt64 ByteBuf.getBigInt64
      rw [hv]
    · unfold ByteBuf.readUint64 ByteBuf.getUint64 ByteBuf.getBigUint64
      rw [hv]
    · unfold ByteBuf.readBigInt64 ByteBuf.getBigInt64
      rw [hv]
    · unfold ByteBuf.readBigUint64 ByteBuf.getBigUint64
      rw [hv]
  · intro m r h
    unfold ByteBuf.readVarInt
    rw [h]
  · intro m r h
    unfold ByteBuf.readVarUint
    rw [h]
  · intro m r h
    unfold ByteBuf.readVarZint
    rw [h]
  · intro n bytes h
    unfold ByteBuf.readUint8Array
    rw [h]
  · intro n elems h
    unfold ByteBuf.readUint16Array
    rw [h]
  · intro len enc v h
    unfold ByteBuf.readString
    rw [h]
  · intro enc v h
    unfold ByteBuf.readString
    rw [h]
  · intro m r h
    unfold ByteBuf.readVarString
    rw [h]

theorem setVarInt_pos (b : ByteBuf) (off : Nat) (v : Int) (m : Option Nat) :
    (b.setVarInt off v m).2.pos = b.pos :=
  setVarIntAux_pos (m.getD 10) b off (toUint32 v) 1

theorem setVarString_pos (b : ByteBuf) (off : Nat) (v : String) :
    (b.setVarString off v).2.pos = b.pos := by
  unfold ByteBuf.setVarString
  dsimp only
  split
  · rename_i e b' heq
    have h := setVarInt_pos b off
      (((v.data.map utf8EncodeChar).flatten.length : Nat) : Int) none
    rw [heq] at h
    exact h
  · rename_i delim b' heq
    have h1 : b'.pos = b.pos := by
      have h := setVarInt_pos b off
        (((v.data.map utf8EncodeChar).flatten.length : Nat) : Int) none
      rw [heq] at h
      exact h
    split
    · rename_i e b'' heq2
      have h2 := setUint8Array_pos b' (off + delim) (v.data.map utf8EncodeChar).flatten
      rw [heq2] at h2
      show b''.pos = b.pos
      rw [h2, h1]
    · rename_i u b'' heq2
      have h2 := setUint8Array_pos b' (off + delim) (v.data.map utf8EncodeChar).flatten
      rw [heq2] at h2
      show b''.pos = b.pos
      rw [h2, h1]

theorem cursorAdvanceWrites_holds (b : ByteBuf) : cursorAdvanceWrites b := by
  refine ⟨fun v => ?_, fun v => ⟨?_, ?_⟩, ?_, ?_, ?_, ?_, ?_, ?_, ?_, ?_, ?_, ?_, ?_, ?_⟩
  · unfold ByteBuf.writeBool
    show (b.setBool b.pos v).2.pos + 1 = b.pos + 1
    unfold ByteBuf.setBool
    rw [setUint8_pos]
  · unfold ByteBuf.writeInt8
    show (b.setInt8 b.pos v).2.pos + 1 = b.pos + 1
    unfold ByteBuf.setInt8
    rw [setUint8_pos]
  · unfold ByteBuf.writeUint8
    show (b.setUint8 b.pos v).2.pos + 1 = b.pos + 1
    rw [setUint8_pos]
  · intro v le h
    constructor
    · unfold ByteBuf.writeInt16 ByteBuf.setInt16
      rw [storeUint_ok b b.pos 2 le _ h]
    · unfold ByteBuf.writeUint16 ByteBuf.setUint16
      rw [storeUint_ok b b.pos 2 le _ h]
  · intro v le h
    constructor
    · unfold ByteBuf.writeInt32 ByteBuf.setInt32
      rw [storeUint_ok b b.pos 4 le _ h]
    · unfold ByteBuf.writeUint32 ByteBuf.setUint32
      rw [storeUint_ok b b.pos 4 le _ h]
  · intro v le h
    unfold ByteBuf.writeFloat32 ByteBuf.setFloat32
    rw [storeUint_ok b b.pos 4 le _ h]
  · intro v le h
    unfold ByteBuf.writeFloat64 ByteBuf.setFloat64
    rw [storeUint_ok b b.pos 8 le _ h]
  · intro v le h
    refine ⟨?_, ?_, ?_, ?_⟩
    · unfold ByteBuf.writeBigInt64 ByteBuf.setBigInt64
      rw [storeUint_ok b b.pos 8 le _ h]
    · unfold ByteBuf.writeBigUint64 ByteBuf.setBigUint64
      rw [storeUint_ok b b.pos 8 le _ h]
    · unfold ByteBuf.writeInt64 ByteBuf.setInt64 ByteBuf.setBigInt64
      rw [storeUint_ok b b.pos 8 le _ h]
    · unfold ByteBuf.writeUint64 ByteBuf.setUint64 ByteBuf.setBigUint64
      rw [storeUint_ok b b.pos 8 le _ h]
  · intro v m len b2 h
    have hp : b2.pos = b.pos := by
      have := setVarInt_pos b b.pos v m
      rw [h] at this
      exact this
    unfold ByteBuf.writeVarInt
    rw [h]
    simp [hp]
  · intro v m len b2 h
    have hp : b2.pos = b.pos := by
      have : (b.setVarUint b.pos v m).2.pos = b.pos := setVarInt_pos b b.pos _ m
      rw [h] at this
      exact this
    unfold ByteBuf.writeVarUint
    rw [h]
    simp [hp]
  · intro v m len b2 h
    have hp : b2.pos = b.pos := by
      have : (b.setVarZint b.pos v m).2.pos = b.pos := setVarInt_pos b b.pos _ m
      rw [h] at this
      exact this
    unfold ByteBuf.writeVarZint
    rw [h]
    simp [hp]
  · intro arr b2 h
    have hp : b2.pos = b.pos := by
      have := setUint8Array_pos b b.pos arr
      rw [h] at this
      exact this
    unfold ByteBuf.writeUint8Array
    rw [h]
    simp [hp]
  · intro arr b2 h
    have hp : b2.pos = b.pos := by
      have := setUint16Array_pos b b.pos arr
      rw [h] at this
      exact this
    unfold ByteBuf.writeUint16Array
    rw [h]
    simp [hp]
  · intro s enc w b2 h
    have hp : b2.pos = b.pos := by
      have := setString_pos b b.pos s enc
      rw [h] at this
      exact this
    unfold ByteBuf.writeString
    rw [h]
    simp [hp]
  · intro s w b2 h
    have hp : b2.pos = b.pos := by
      have := setVarString_pos b b.pos s
      rw [h] at this
      exact this
    unfold ByteBuf.writeVarString
    rw [h]
    simp [hp]

theorem positionalSetsFixed_holds (b : ByteBuf) : positionalSetsFixed b := by
  refine ⟨fun off v => setUint8_pos b off _,
    fun off v => ⟨setUint8_pos b off _, setUint8_pos b off _⟩,
    fun off v le => ⟨storeBytes_pos b off _, storeBytes_pos b off _, storeBytes_pos b off _,
      storeBytes_pos b off _, storeBytes_pos b off _, storeBytes_pos b off _,
      storeBytes_pos b off _, storeBytes_pos b off _⟩,
    fun off v le => ⟨storeBytes_pos b off _, storeBytes_pos b off _⟩,
    fun off v m => ⟨setVarInt_pos b off _ m, setVarInt_pos b off _ m, setVarInt_pos b off _ m⟩,
    fun off arr => ⟨setUint8Array_pos b off arr, setUint16Array_pos b off arr⟩,
    fun off s enc => setString_pos b off s enc,
    fun off s => setVarString_pos b off s⟩

/-- Claim C4 (amended): every streaming read and write of the source —
the fixed-width `Bool`/`Int8`/`Uint8`/`Int16`/`Uint16`/`Int32`/`Uint32`/
`Float32`/`Float64`/`BigInt64`/`BigUint64`/`Int64`/`Uint64` forms, the
variable-length `VarInt`/`VarUint`/`VarZint`/`VarString` forms, the
`Uint8Array`/`Uint16Array` forms and `String` — advances the cursor by
exactly the byte count it consumes or produces, with the one exception
the counterexample exhibits: `readString` with the byteLength omitted
sets the cursor to the view's byteLength, which matches the decoded byte
count only when the view reaches the end of the underlying buffer. Every
positional `set` operation of the source leaves the cursor unchanged
(positional `get` operations are pure in the model and have no state to
change). -/
theorem c4_cursor_discipline_amended (b : ByteBuf) :
    cursorAdvanceReads b ∧ cursorAdvanceWrites b ∧ positionalSetsFixed b :=
  ⟨cursorAdvanceReads_holds b, cursorAdvanceWrites_holds b, positionalSetsFixed_holds b⟩

/-- Witness for the amended C4 on a concrete 8-byte buffer, discharging
the bound and success hypotheses of each group. -/
theorem c4_cursor_discipline_amended_witness :
    (ByteBuf.readInt16 ⟨[0, 0, 0, 0, 0, 0, 0, 0], 0, 8, 0⟩ false).2.pos = 2 ∧
    (ByteBuf.readUint16 ⟨[0, 0, 0, 0, 0, 0, 0, 0], 0, 8, 0⟩ false).2.pos = 2 ∧
    (ByteBuf.readInt32 ⟨[0, 0, 0, 0, 0, 0, 0, 0], 0, 8, 0⟩ false).2.pos = 4 ∧
    (ByteBuf.readUint32 ⟨[0, 0, 0, 0, 0, 0, 0, 0], 0, 8, 0⟩ false).2.pos = 4 ∧
    (ByteBuf.readFloat32 ⟨[0, 0, 0, 0, 0, 0, 0, 0], 0, 8, 0⟩ false).2.pos = 4 ∧
    (ByteBuf.readFloat64 ⟨[0, 0, 0, 0, 0, 0, 0, 0], 0, 8, 0⟩ false).2.pos = 8 ∧
    (ByteBuf.readInt64 ⟨[0, 0, 0, 0, 0, 0, 0, 0], 0, 8, 0⟩ false).2.pos = 8 ∧
    (ByteBuf.readUint64 ⟨[0, 0, 0, 0, 0, 0, 0, 0], 0, 8, 0⟩ false).2.pos = 8 ∧
    (ByteBuf.readBigInt64 ⟨[0, 0, 0, 0, 0, 0, 0, 0], 0, 8, 0⟩ false).2.pos = 8 ∧
    (ByteBuf.readBigUint64 ⟨[0, 0, 0, 0, 0, 0, 0, 0], 0, 8, 0⟩ false).2.pos = 8 ∧
    (ByteBuf.readBool ⟨[0, 0, 0, 0, 0, 0, 0, 0], 0, 8, 0⟩).2.pos = 1 ∧
    (ByteBuf.readInt8 ⟨[0, 0, 0, 0, 0, 0, 0, 0], 0, 8, 0⟩).2.pos = 1 ∧
    (ByteBuf.readUint8 ⟨[0, 0, 0, 0, 0, 0, 0, 0], 0, 8, 0⟩).2.pos = 1 ∧
    (ByteBuf.readVarInt ⟨[0, 0, 0, 0, 0, 0, 0, 0], 0, 8, 0⟩ none).2.pos = 1 ∧
    (ByteBuf.readVarUint ⟨[0, 0, 0, 0, 0, 0, 0, 0], 0, 8, 0⟩ none).2.pos = 1 ∧
    (ByteBuf.readVarZint ⟨[0, 0, 0, 0, 0, 0, 0, 0], 0, 8, 0⟩ none).2.pos = 1 ∧
    (ByteBuf.readUint8Array ⟨[0, 0, 0, 0, 0, 0, 0, 0], 0, 8, 0⟩ none).2.pos = 8 ∧
    (ByteBuf.readUint16Array ⟨[0, 0, 0, 0, 0, 0, 0, 0], 0, 8, 0⟩ none).2.pos = 8 ∧
    (ByteBuf.readString ⟨[0, 0, 0, 0, 0, 0, 0, 0], 0, 8, 0⟩ (some 2) none).2.pos = 2 ∧
    (ByteBuf.readString ⟨[0, 0, 0, 0, 0, 0, 0, 0], 0, 8, 0⟩ none none).2.pos = 8 ∧
    (ByteBuf.readVarString ⟨[0, 0, 0, 0, 0, 0, 0, 0], 0, 8, 0⟩ none).2.pos = 1 ∧
    (ByteBuf.writeBool ⟨[0, 0, 0, 0, 0, 0, 0, 0], 0, 8, 0⟩ true).2.pos = 1 ∧
    (ByteBuf.writeInt8 ⟨[0, 0, 0, 0, 0, 0, 0, 0], 0, 8, 0⟩ 5).2.pos = 1 ∧
    (ByteBuf.writeUint8 ⟨[0, 0, 0, 0, 0, 0, 0, 0], 0, 8, 0⟩ 5).2.pos = 1 ∧
    (ByteBuf.writeInt16 ⟨[0, 0, 0, 0, 0, 0, 0, 0], 0, 8, 0⟩ 5 false).2.pos = 2 ∧
    (ByteBuf.writeUint16 ⟨[0, 0, 0, 0, 0, 0, 0, 0], 0, 8, 0⟩ 5 false).2.pos = 2 ∧
    (ByteBuf.writeInt32 ⟨[0, 0, 0, 0, 0, 0, 0, 0], 0, 8, 0⟩ 5 false).2.pos = 4 ∧
    (ByteBuf.writeUint32 ⟨[0, 0, 0, 0, 0, 0, 0, 0], 0, 8, 0⟩ 5 false).2.pos = 4 ∧
    (ByteBuf.writeFloat32 ⟨[0, 0, 0, 0, 0, 0, 0, 0], 0, 8, 0⟩ (FloatVal.finite 0)
      false).2.pos = 4 ∧
    (ByteBuf.writeFloat64 ⟨[0, 0, 0, 0, 0, 0, 0, 0], 0, 8, 0⟩ (FloatVal.finite 0)
      false).2.pos = 8 ∧
    (ByteBuf.writeBigInt64 ⟨[0, 0, 0, 0, 0, 0, 0, 0], 0, 8, 0⟩ 5 false).2.pos = 8 ∧
    (ByteBuf.writeBigUint64 ⟨[0, 0, 0, 0, 0, 0, 0, 0], 0, 8, 0⟩ 5 false).2.pos = 8 ∧
    (ByteBuf.writeInt64 ⟨[0, 0, 0, 0, 0, 0, 0, 0], 0, 8, 0⟩ 5 false).2.pos = 8 ∧
    (ByteBuf.writeUint64 ⟨[0, 0, 0, 0, 0, 0, 0, 0], 0, 8, 0⟩ 5 false).2.pos = 8 ∧
    (ByteBuf.writeVarInt ⟨[0, 0, 0, 0, 0, 0, 0, 0], 0, 8, 0⟩ 5 none).2.pos = 1 ∧
    (ByteBuf.writeVarUint ⟨[0, 0, 0, 0, 0, 0, 0, 0], 0, 8, 0⟩ 5 none).2.pos = 1 ∧
    (ByteBuf.writeVarZint ⟨[0, 0, 0, 0, 0, 0, 0, 0], 0, 8, 0⟩ 5 none).2.pos = 1 ∧
    (ByteBuf.writeUint8Array ⟨[0, 0, 0, 0, 0, 0, 0, 0], 0, 8, 0⟩ [1, 2]).2.pos = 2 ∧
    (ByteBuf.writeUint16Array ⟨[0, 0, 0, 0, 0, 0, 0, 0], 0, 8, 0⟩ [1, 2]).2.pos = 4 ∧
    (ByteBuf.writeString ⟨[0, 0, 0, 0, 0, 0, 0, 0], 0, 8, 0⟩ "A" none).2.pos = 1 ∧
    (ByteBuf.writeVarString ⟨[0, 0, 0, 0, 0, 0, 0, 0], 0, 8, 0⟩ "A").2.pos = 2 ∧
    (ByteBuf.setInt16 ⟨[0, 0, 0, 0, 0, 0, 0, 0], 0, 8, 0⟩ 3 5 true).2.pos = 0 ∧
    (ByteBuf.setFloat32 ⟨[0, 0, 0, 0, 0, 0, 0, 0], 0, 8, 0⟩ 3 (FloatVal.finite 0)
      true).2.pos = 0 ∧
    (ByteBuf.setVarInt ⟨[0, 0, 0, 0, 0, 0, 0, 0], 0, 8, 0⟩ 2 300 none).2.pos = 0 ∧
    (ByteBuf.setUint16Array ⟨[0, 0, 0, 0, 0, 0, 0, 0], 0, 8, 0⟩ 2 [7]).2.pos = 0 ∧
    (ByteBuf.setString ⟨[0, 0, 0, 0, 0, 0, 0, 0], 0, 8, 0⟩ 1 "A" none).2.pos = 0 ∧
    (ByteBuf.setVarString ⟨[0, 0, 0, 0, 0, 0, 0, 0], 0, 8, 0⟩ 1 "A").2.pos = 0 := by
  have h := c4_cursor_discipline_amended ⟨[0, 0, 0, 0, 0, 0, 0, 0], 0, 8, 0⟩
  obtain ⟨r1, r2, r3, r4, r5, r6, r7, r8, r9, r10, r11, r12⟩ := h.1
  obtain ⟨w1, w2, w3, w4, w5, w6, w7, w8, w9, w10, w11, w12, w13, w14⟩ := h.2.1
  obtain ⟨p1, p2, p3, p4, p5, p6, p7, p8⟩ := h.2.2
  refine ⟨by simpa using (r1 false (by decide)).1, by simpa using (r1 false (by decide)).2,
    by simpa using (r2 false (by decide)).1, by simpa using (r2 false (by decide)).2.1,
    by simpa using (r2 false (by decide)).2.2,
    by simpa using (r3 false (by decide)).1, by simpa using (r3 false (by decide)).2.1,
    by simpa using (r3 false (by decide)).2.2.1,
    by simpa using (r3 false (by decide)).2.2.2.1,
    by simpa using (r3 false (by decide)).2.2.2.2,
    by simpa using r4.1, by simpa using r4.2.1, by simpa using r4.2.2,
    by simpa using r5 none ⟨0, 1⟩ (by decide),
    by simpa using r6 none ⟨0, 1⟩ (by decide),
    by simpa using r7 none ⟨0, 1⟩ (by decide),
    by simpa using r8 none [0, 0, 0, 0, 0, 0, 0, 0] (by decide),
    by simpa using r9 none [0, 0, 0, 0] (by decide),
    by simpa using r10 2 none "\x00\x00" (by decide),
    by simpa using r11 none "\x00\x00\x00\x00\x00\x00\x00\x00" (by decide),
    by simpa using r12 none ⟨"", 1⟩ (by decide),
    by simpa using w1 true, by simpa using (w2 5).1, by simpa using (w2 5).2,
    by simpa using (w3 5 false (by decide)).1, by simpa using (w3 5 false (by decide)).2,
    by simpa using (w4 5 false (by decide)).1, by simpa using (w4 5 false (by decide)).2,
    by simpa using w5 (FloatVal.finite 0) false (by decide),
    by simpa using w6 (FloatVal.finite 0) false (by decide),
    by simpa using (w7 5 false (by decide)).1, by simpa using (w7 5 false (by decide)).2.1,
    by simpa using (w7 5 false (by decide)).2.2.1,
    by simpa using (w7 5 false (by decide)).2.2.2,
    by simpa using w8 5 none 1 ⟨[5, 0, 0, 0, 0, 0, 0, 0], 0, 8, 0⟩ (by decide),
    by simpa using w9 5 none 1 ⟨[5, 0, 0, 0, 0, 0, 0, 0], 0, 8, 0⟩ (by decide),
    by simpa using w10 5 none 1 ⟨[10, 0, 0, 0, 0, 0, 0, 0], 0, 8, 0⟩ (by decide),
    by simpa using w11 [1, 2] ⟨[1, 2, 0, 0, 0, 0, 0, 0], 0, 8, 0⟩ (by decide),
    by simpa using w12 [1, 2] ⟨[1, 0, 2, 0, 0, 0, 0, 0], 0, 8, 0⟩ (by decide),
    by simpa using w13 "A" none 1 ⟨[65, 0, 0, 0, 0, 0, 0, 0], 0, 8, 0⟩ (by decide),
    by simpa using w14 "A" 2 ⟨[1, 65, 0, 0, 0, 0, 0, 0], 0, 8, 0⟩ (by decide),
    by simpa using (p3 3 5 true).1,
    by simpa using (p4 3 (FloatVal.finite 0) true).1,
    by simpa using (p5 2 300 none).1,
    by simpa using (p6 2 [7]).2,
    by simpa using p7 1 "A" none,
    by simpa using p8 1 "A"⟩
